import Mathlib

/-
Verification development for the nl2kql repository.

Strings are embedded as lists of characters (`Str`).  The Python string
primitives used by the source (strip, lower, split, count, replace,
substring membership, the concrete regular expressions of
`app/kql_validator.py`) are translated into executable Lean functions.
Numeric scores computed by `app/schema_refiner.py` are sums of multiples
of 0.5, which IEEE doubles represent exactly, so they are embedded as
rationals.  Lowercasing is embedded for the ASCII range, which covers
every string the source compares.
-/

set_option maxHeartbeats 1000000

abbrev Str := List Char

def str (s : String) : Str := s.toList

/-- The apostrophe character, used inside warning messages. -/
def sqc : Char := Char.ofNat 39

/-- The backtick character, used by the markdown-fence patterns. -/
def btick : Char := Char.ofNat 96

/-- Python `str.isspace` members relevant to `\s` in the source regexes. -/
def pySpace (c : Char) : Bool :=
  c == ' ' || c == '\t' || c == '\n' || c == '\r' || c == '\x0b' || c == '\x0c'

/-- ASCII lowercasing, the fragment of Python `str.lower` the source relies on. -/
def asciiLower (c : Char) : Char :=
  if c = 'A' then 'a' else if c = 'B' then 'b' else if c = 'C' then 'c'
  else if c = 'D' then 'd' else if c = 'E' then 'e' else if c = 'F' then 'f'
  else if c = 'G' then 'g' else if c = 'H' then 'h' else if c = 'I' then 'i'
  else if c = 'J' then 'j' else if c = 'K' then 'k' else if c = 'L' then 'l'
  else if c = 'M' then 'm' else if c = 'N' then 'n' else if c = 'O' then 'o'
  else if c = 'P' then 'p' else if c = 'Q' then 'q' else if c = 'R' then 'r'
  else if c = 'S' then 's' else if c = 'T' then 't' else if c = 'U' then 'u'
  else if c = 'V' then 'v' else if c = 'W' then 'w' else if c = 'X' then 'x'
  else if c = 'Y' then 'y' else if c = 'Z' then 'z' else c

def asciiLowerStr (s : Str) : Str := s.map asciiLower

/-- Python `str.strip()`. -/
def pyStrip (s : Str) : Str :=
  ((s.dropWhile pySpace).reverse.dropWhile pySpace).reverse

/-- Python substring membership `pat in s`. -/
def pyIn (pat : Str) : Str → Bool
  | [] => pat.isPrefixOf []
  | c :: t => pat.isPrefixOf (c :: t) || pyIn pat t

/-- Python `s.split('\n')`. -/
def splitNL : Str → List Str
  | [] => [[]]
  | c :: t =>
    if c = '\n' then [] :: splitNL t
    else
      match splitNL t with
      | [] => [[c]]
      | l :: ls => (c :: l) :: ls

/-- Python `'\n'.join(ls)`. -/
def joinNL : List Str → Str
  | [] => []
  | [l] => l
  | l :: ls => l ++ '\n' :: joinNL ls

/-- Python `s.split()`: split on whitespace runs, dropping empty pieces.
The fuel argument (always at least the string length at the wrapper) keeps
the recursion structural so that the kernel can evaluate it. -/
def splitWSF : Nat → Str → List Str
  | 0, _ => []
  | _, [] => []
  | fuel + 1, c :: t =>
    if pySpace c then splitWSF fuel t
    else
      ((c :: t).takeWhile (fun x => !pySpace x)) ::
        splitWSF fuel (t.dropWhile (fun x => !pySpace x))

def splitWS (s : Str) : List Str := splitWSF s.length s

/-- Python `s.count(pat)`: non-overlapping occurrences, scanning left to right. -/
def pyCount (pat : Str) : Str → Nat
  | [] => 0
  | c :: t =>
    if pat.isPrefixOf (c :: t) then 1 + pyCount pat (t.drop (pat.length - 1))
    else pyCount pat t
termination_by s => s.length
decreasing_by
  · simp only [List.length_cons, List.length_drop]
    omega
  · simp

/-- Python `s.replace(pat, rep, 1)`: replace the first occurrence only. -/
def pyReplaceFirst (pat rep : Str) : Str → Str
  | [] => if pat.isPrefixOf ([] : Str) then rep else []
  | c :: t =>
    if pat.isPrefixOf (c :: t) then rep ++ (c :: t).drop pat.length
    else c :: pyReplaceFirst pat rep t

/-
Regular-expression substitution is embedded through scan drivers.  A matcher
`m` receives the current suffix; `m s = some (k, r)` means the suffix starts
with a match of `k + 1` characters whose replacement text is `r` (all matchers
below consume at least one character, so the count is stored off by one to
make termination structural).  `subScan` mirrors `re.sub`: it replaces every
non-overlapping match scanning left to right, resuming after the replaced
span, and never rescans replacement text.
-/

def subScanF (m : Str → Option (Nat × Str)) : Nat → Str → Str
  | 0, _ => []
  | _, [] => []
  | fuel + 1, c :: t =>
    match m (c :: t) with
    | some (k, r) => r ++ subScanF m fuel (t.drop k)
    | none => c :: subScanF m fuel t

def subScan (m : Str → Option (Nat × Str)) (s : Str) : Str :=
  subScanF m s.length s

/-- Does `m` match anywhere in the string (`re.search`)? -/
def hasMatch (m : Str → Option (Nat × Str)) : Str → Bool
  | [] => false
  | c :: t => (m (c :: t)).isSome || hasMatch m t

/-- `re.sub` under `re.MULTILINE` for a `^`-anchored pattern: matches are only
attempted at the start of the string or right after a newline. -/
def subScanBOLF (m : Str → Option (Nat × Str)) : Nat → Bool → Str → Str
  | 0, _, _ => []
  | _, _, [] => []
  | fuel + 1, atBOL, c :: t =>
    match (if atBOL then m (c :: t) else none) with
    | some (k, r) =>
      r ++ subScanBOLF m fuel ((((c :: t).take (k + 1)).getLastD ' ') == '\n') (t.drop k)
    | none => c :: subScanBOLF m fuel (c == '\n') t

def subScanBOL (m : Str → Option (Nat × Str)) (atBOL : Bool) (s : Str) : Str :=
  subScanBOLF m s.length atBOL s

/-
`KQLValidator._remove_markdown`.  The first pattern is
`^```(?:kusto|kql)?\s*\n?` with MULTILINE: after the fence the greedy `\s*`
absorbs every whitespace character (newlines included), leaving `\n?` empty.
The second is `\n?```\s*$` with MULTILINE: `$` holds at end of string or just
before a newline, and the greedy `\s*` backtracks to the last position where
`$` holds.  The third is `^`([^`]+)`$` applied to the stripped query.
-/

def fenceOpenMatch (s : Str) : Option (Nat × Str) :=
  if s.take 3 = [btick, btick, btick] then
    let r1 := s.drop 3
    let kw :=
      if (str "kusto").isPrefixOf r1 then str "kusto"
      else if (str "kql").isPrefixOf r1 then str "kql"
      else []
    let w := (r1.drop kw.length).takeWhile pySpace
    some (([btick, btick, btick] ++ kw ++ w).length - 1, [])
  else none

/-- Largest index of `c` in the string, if any. -/
def lastIdxOf (c : Char) : Str → Option Nat
  | [] => none
  | x :: t =>
    match lastIdxOf c t with
    | some i => some (i + 1)
    | none => if x = c then some 0 else none

def fenceCloseMatch (s : Str) : Option (Nat × Str) :=
  let pre : Str := if s.take 1 = ['\n'] then ['\n'] else []
  let s1 := s.drop pre.length
  if s1.take 3 = [btick, btick, btick] then
    let rest := s1.drop 3
    let ws := rest.takeWhile pySpace
    if rest.length = ws.length then
      some ((pre ++ [btick, btick, btick] ++ ws).length - 1, [])
    else
      match lastIdxOf '\n' ws with
      | some j => some ((pre ++ [btick, btick, btick] ++ ws.take j).length - 1, [])
      | none => none
  else none

def stripInlineBticks (s : Str) : Str :=
  if s.take 1 = [btick] ∧ s.getLast? = some btick ∧ 3 ≤ s.length ∧
      (s.drop 1).dropLast.all (fun c => c != btick) then
    (s.drop 1).dropLast
  else s

def removeMarkdown (q : Str) : Str :=
  let q1 := subScanBOL fenceOpenMatch true q
  let q2 := subScan fenceCloseMatch q1
  pyStrip (stripInlineBticks (pyStrip q2))

/- `KQLValidator.__init__` keyword tables. -/

def kqlOperators : List Str :=
  [str "where", str "project", str "extend", str "summarize", str "order",
   str "sort", str "take", str "limit", str "join", str "union",
   str "distinct", str "top", str "sample", str "render", str "let",
   str "datatable"]

def commonTables : List Str :=
  [str "SecurityEvent", str "Syslog", str "Event", str "Heartbeat",
   str "Perf", str "Alert", str "AzureActivity", str "SigninLogs",
   str "AuditLogs", str "AppServiceHTTPLogs", str "ContainerLog",
   str "KubeEvents", str "InsightsMetrics", str "VMConnection",
   str "SecurityAlert", str "SecurityIncident",
   str "ThreatIntelligenceIndicator", str "Usage", str "Operation",
   str "ConfigurationChange", str "ConfigurationData"]

/- `KQLValidator._check_basic_syntax`. -/

def checkBasicSyntaxStep (acc : List Str × List Str) (il : Nat × Str) :
    List Str × List Str :=
  let (ls, ws) := acc
  let (i, l0) := il
  let l := pyStrip l0
  if l = [] then (ls, ws)
  else if i = 0 ∧ l.take 1 = ['|'] then
    (ls ++ [pyStrip (l.drop 1)],
     ws ++ [str "Removed unnecessary pipe at beginning of query"])
  else if 0 < i ∧ l.take 1 ≠ ['|'] ∧ ¬ (str "//").isPrefixOf l ∧
      kqlOperators.any (fun op => pyIn op (asciiLowerStr l)) then
    let l2 := '|' :: ' ' :: l
    (ls ++ [l2],
     ws ++ [str "Added missing pipe before " ++ [sqc] ++ l2.take 20 ++
            str "..." ++ [sqc]])
  else (ls ++ [l], ws)

def checkBasicSyntax (q : Str) : Str × List Str :=
  let sr :=
    if q.getLast? = some ';' then
      (q.dropLast, [str "Removed unnecessary semicolon at end of query"])
    else (q, [])
  let lw := (splitNL sr.1).enum.foldl checkBasicSyntaxStep ([], [])
  (joinNL lw.1, sr.2 ++ lw.2)

/- `KQLValidator._levenshtein_distance`: the dynamic-programming rows of the
source, row by row.  `levRowGo` builds `current_row` past its leading entry,
walking `s2` together with the tail of `previous_row`. -/

def levRowGo (c1 : Char) : Str → List Nat → Nat → List Nat
  | c2 :: s2t, pj :: prest, curj =>
    let v := min (prest.headD 0 + 1)
              (min (curj + 1) (pj + (if c1 = c2 then 0 else 1)))
    v :: levRowGo c1 s2t prest v
  | _, _, _ => []

def levDP (s1 s2 : Str) : Nat :=
  if s2 = [] then s1.length
  else
    (s1.enum.foldl
      (fun prev ic => (ic.1 + 1) :: levRowGo ic.2 s2 prev (ic.1 + 1))
      (List.range (s2.length + 1))).getLastD 0

def levenshteinDistance (s1 s2 : Str) : Nat :=
  if s1.length < s2.length then levDP s2 s1 else levDP s1 s2

/- `KQLValidator._find_closest_table` and `_check_table_names`. -/

def levScan (tl : Str) : List Str → Option (Str × Nat) → Option (Str × Nat)
  | [], best => best
  | t :: ts, best =>
    let d := levenshteinDistance tl (asciiLowerStr t)
    let upd :=
      match best with
      | none => decide (d ≤ 2)
      | some (_, bd) => decide (d < bd) && decide (d ≤ 2)
    if upd then levScan tl ts (some (t, d)) else levScan tl ts best

def findClosestTable (name : Str) (ts : List Str) : Option Str :=
  let tl := asciiLowerStr name
  match ts.find? (fun t => asciiLowerStr t == tl) with
  | some t => some t
  | none =>
    match ts.find? (fun t => pyIn tl (asciiLowerStr t) || pyIn (asciiLowerStr t) tl) with
    | some t => some t
    | none => (levScan tl ts none).map Prod.fst

def isIdentChar (c : Char) : Bool := c.isAlpha || c.isDigit || c == '_'

/-- The table-reference pattern `^([A-Za-z][A-Za-z0-9_]*)\s*(?:\||$)` applied
to one (already stripped) line, returning the captured identifier. -/
def parseTableName (l : Str) : Option Str :=
  match l with
  | [] => none
  | c :: _ =>
    if c.isAlpha then
      let ident := l.takeWhile isIdentChar
      let rest := (l.drop ident.length).dropWhile pySpace
      if rest = [] ∨ rest.take 1 = ['|'] then some ident else none
    else none

def tableCorrWarnA (name cm : Str) : Str :=
  str "Corrected table name " ++ [sqc] ++ name ++ [sqc] ++ str " to " ++
    [sqc] ++ cm ++ [sqc]

def tableNotFoundWarn (name : Str) : Str :=
  str "Table " ++ [sqc] ++ name ++ [sqc] ++ str " not found in workspace"

def tableCorrWarnB (name cm : Str) : Str :=
  str "Suggested table name correction: " ++ [sqc] ++ name ++ [sqc] ++
    str " -> " ++ [sqc] ++ cm ++ [sqc]

/-- One iteration of the `_check_table_names` loop.  The lines come from the
text as it was on entry; the replacement acts on the evolving text, as in the
source.  An argument list that is `None` or empty selects the common-table
branch, mirroring Python truthiness of `available_tables`. -/
def checkTableNamesStep (tables : Option (List Str)) (acc : Str × List Str)
    (l0 : Str) : Str × List Str :=
  let (cor, ws) := acc
  let l := pyStrip l0
  if l = [] ∨ (str "//").isPrefixOf l ∨ l.take 1 = ['|'] then (cor, ws)
  else
    match parseTableName l with
    | none => (cor, ws)
    | some name =>
      match tables with
      | some (t0 :: trest) =>
        if name ∈ t0 :: trest then (cor, ws)
        else
          match findClosestTable name (t0 :: trest) with
          | some cm => (pyReplaceFirst name cm cor, ws ++ [tableCorrWarnA name cm])
          | none => (cor, ws ++ [tableNotFoundWarn name])
      | _ =>
        if name ∈ commonTables then (cor, ws)
        else
          match findClosestTable name commonTables with
          | some cm => (pyReplaceFirst name cm cor, ws ++ [tableCorrWarnB name cm])
          | none => (cor, ws)

def checkTableNames (q : Str) (tables : Option (List Str)) : Str × List Str :=
  (splitNL q).foldl (checkTableNamesStep tables) (q, [])

/-
`KQLValidator._check_time_filters`.  The four patterns share the shape
`ago\s*\(\s*(\d+)\s*UNIT\s*\)` (IGNORECASE) where UNIT is empty, `days?`,
`hours?` or `minutes?`, each rewritten to `ago(\1X)` for the compact unit
letter X.  The greedy pieces are deterministic because digit, whitespace and
letter classes are disjoint.
-/

/-- The optional `s?` at the end of a unit word: one character when the next
character lower-cases to `s`, nothing otherwise. -/
def agoSfx (r7 : Str) : Str :=
  match r7 with
  | c :: _ => if asciiLower c = 's' then [c] else []
  | [] => []

def agoMatch (u : Option Str) (unit : Char) (s : Str) : Option (Nat × Str) :=
  let a := s.take 3
  if asciiLowerStr a = str "ago" then
    let r1 := s.drop 3
    let w1 := r1.takeWhile pySpace
    match r1.dropWhile pySpace with
    | '(' :: r3 =>
      let w2 := r3.takeWhile pySpace
      let r4 := r3.dropWhile pySpace
      let ds := r4.takeWhile Char.isDigit
      if ds = [] then none
      else
        let r5 := r4.dropWhile Char.isDigit
        let w3 := r5.takeWhile pySpace
        let r6 := r5.dropWhile pySpace
        let rep := str "ago(" ++ ds ++ [unit] ++ str ")"
        match u with
        | none =>
          match r6 with
          | ')' :: _ =>
            some ((a ++ w1 ++ '(' :: (w2 ++ ds ++ w3 ++ [')'])).length - 1, rep)
          | _ => none
        | some uw =>
          let uwp := r6.take uw.length
          if asciiLowerStr uwp = uw then
            let r7 := r6.drop uw.length
            let sp := agoSfx r7
            let r8 := r7.drop sp.length
            let w4 := r8.takeWhile pySpace
            match r8.dropWhile pySpace with
            | ')' :: _ =>
              some ((a ++ w1 ++ '(' ::
                (w2 ++ ds ++ w3 ++ uwp ++ sp ++ w4 ++ [')'])).length - 1, rep)
            | _ => none
          else none
    | _ => none
  else none

def timePatterns : List (Str → Option (Nat × Str)) :=
  [agoMatch none 'd', agoMatch (some (str "day")) 'd',
   agoMatch (some (str "hour")) 'h', agoMatch (some (str "minute")) 'm']

def checkTimeFilters (q : Str) : Str × List Str :=
  let cw := timePatterns.foldl
    (fun (cw : Str × List Str) m =>
      if hasMatch m cw.1 then
        (subScan m cw.1, cw.2 ++ [str "Corrected time filter format"])
      else cw)
    (q, [])
  if ¬ pyIn (str "TimeGenerated") cw.1 ∧ ¬ pyIn (str "ago(") (asciiLowerStr cw.1) then
    (cw.1, cw.2 ++ [str "Consider adding a TimeGenerated filter for better performance"])
  else cw

/- `KQLValidator._check_operators_and_functions` (warnings only). -/

def projAfterSummarize : List Str → Bool → Bool
  | [], _ => false
  | l :: ls, hs =>
    let ll := pyStrip (asciiLowerStr l)
    if pyIn (str "summarize") ll then projAfterSummarize ls true
    else if hs ∧ pyIn (str "project") ll then true
    else projAfterSummarize ls hs

def checkOperatorsAndFunctions (q : Str) : List Str :=
  let ql := asciiLowerStr q
  (if pyIn (str "order by") ql ∧ pyIn (str "sort by") ql then
    [str "Use either " ++ [sqc] ++ str "order by" ++ [sqc] ++ str " or " ++
     [sqc] ++ str "sort by" ++ [sqc] ++ str ", not both"]
   else []) ++
  (if pyIn (str "take") ql ∧ pyIn (str "limit") ql then
    [str "Use either " ++ [sqc] ++ str "take" ++ [sqc] ++ str " or " ++
     [sqc] ++ str "limit" ++ [sqc] ++ str ", not both"]
   else []) ++
  (if pyIn (str "summarize") ql ∧
      ¬ [str "count()", str "sum(", str "avg(", str "min(", str "max(",
         str "dcount("].any (fun f => pyIn f ql) then
    [str "Summarize statement should include aggregation functions"]
   else []) ++
  (if projAfterSummarize (splitNL q) false then
    [str "Project after summarize may not work as expected; consider using extend instead"]
   else [])

/- `KQLValidator._fix_common_mistakes`. -/

def ciLitMatch (wrong correct : Str) (s : Str) : Option (Nat × Str) :=
  if asciiLowerStr (s.take wrong.length) = wrong then
    some (wrong.length - 1, correct)
  else none

def functionFixes : List (Str × Str) :=
  [(str "length(", str "strlen("), (str "len(", str "strlen("),
   (str "substring(", str "substr("), (str "isnull(", str "isempty("),
   (str "notnull(", str "isnotempty(")]

/-- The matcher of `(\w+)\s*=\s*("[^"]*")`, replaced by `\1 == \2`. -/
def eqQuoteMatch (s : Str) : Option (Nat × Str) :=
  let w := s.takeWhile isIdentChar
  if w = [] then none
  else
    let sp1 := (s.dropWhile isIdentChar).takeWhile pySpace
    match (s.dropWhile isIdentChar).dropWhile pySpace with
    | '=' :: r3 =>
      let sp2 := r3.takeWhile pySpace
      match r3.dropWhile pySpace with
      | '"' :: r5 =>
        let inner := r5.takeWhile (fun c => c != '"')
        match r5.dropWhile (fun c => c != '"') with
        | '"' :: _ =>
          some ((w ++ sp1 ++ '=' :: (sp2 ++ '"' :: (inner ++ ['"']))).length - 1,
                w ++ str " == " ++ '"' :: (inner ++ ['"']))
        | _ => none
      | _ => none
    | _ => none

def fixCommonMistakes (q : Str) : Str × List Str :=
  let fw := functionFixes.foldl
    (fun (cw : Str × List Str) wc =>
      if pyIn wc.1 (asciiLowerStr cw.1) then
        (subScan (ciLitMatch wc.1 wc.2) cw.1,
         cw.2 ++ [str "Corrected function name: " ++ wc.1 ++ str " -> " ++ wc.2])
      else cw)
    (q, [])
  if hasMatch eqQuoteMatch fw.1 then
    (subScan eqQuoteMatch fw.1,
     fw.2 ++ [str "Changed assignment operator (=) to comparison operator (==) for string comparison"])
  else fw

/- `KQLValidator._final_validation`. -/

def finalValidation (q : Str) : Bool :=
  if pyStrip q = [] then false
  else
    let lines := ((splitNL q).map pyStrip).filter (fun l => l ≠ [])
    if lines = [] then false
    else
      match lines.find? (fun l => ¬ (str "//").isPrefixOf l) with
      | none => false
      | some fl =>
        let headAlpha :=
          match fl with
          | c :: _ => c.isAlpha
          | [] => false
        if headAlpha || (str "union").isPrefixOf (asciiLowerStr fl) ||
            (str "let").isPrefixOf (asciiLowerStr fl) then
          decide (q.count '(' = q.count ')')
        else false

/-- `KQLValidator.validate_and_correct`: the full pipeline. -/
def validateAndCorrect (kqlQuery : Str) (availableTables : Option (List Str)) :
    Str × List Str × Bool :=
  let c1 := removeMarkdown (pyStrip kqlQuery)
  let bw := checkBasicSyntax c1
  let tw := checkTableNames bw.1 availableTables
  let fw := checkTimeFilters tw.1
  let ow := checkOperatorsAndFunctions fw.1
  let mw := fixCommonMistakes fw.1
  (mw.1, bw.2 ++ tw.2 ++ fw.2 ++ ow ++ mw.2, finalValidation mw.1)

/- `KQLValidator.get_query_complexity_score`. -/

structure ComplexityOps where
  filters : Nat
  projections : Nat
  aggregations : Nat
  joins : Nat
  unions : Nat
  sorts : Nat
  limits : Nat
deriving DecidableEq, Repr

structure ComplexityReport where
  operations : ComplexityOps
  complexity_score : Nat
  performance_impact : Str
  line_count : Nat
  has_time_filter : Bool
deriving DecidableEq, Repr

def getQueryComplexityScore (q : Str) : ComplexityReport :=
  let ql := asciiLowerStr q
  let ops : ComplexityOps :=
    ⟨pyCount (str "where") ql, pyCount (str "project") ql,
     pyCount (str "summarize") ql, pyCount (str "join") ql,
     pyCount (str "union") ql,
     pyCount (str "order by") ql + pyCount (str "sort by") ql,
     pyCount (str "take") ql + pyCount (str "limit") ql⟩
  let score := ops.filters + ops.projections + ops.aggregations + ops.joins +
    ops.unions + ops.sorts + ops.limits
  ⟨ops, score,
   if 5 < score then str "High" else if 2 < score then str "Medium" else str "Low",
   ((splitNL q).filter (fun l => pyStrip l ≠ [])).length,
   pyIn (str "ago(") ql || pyIn (str "timegenerated") ql⟩

/-
Embedding of `app/schema_refiner.py`.  Every score the source computes is a
sum of the constants 0.5, 1.0, 1.5, 2.0, 3.0, all exact multiples of 0.5
that IEEE doubles represent and add exactly; the embedding therefore stores
scores in half-point units as naturals (0.5 becomes 1, 1.5 becomes 3, and so
on), which doubles every constant but preserves equality and order exactly.
`tablePriorityRat` recovers the float value as a rational for statements
quoting the source's constants.  Python `list.sort(key=..., reverse=True)`
is a stable descending sort, embedded as insertion sort with the relation
"left score not below right score" (equal scores keep input order).
-/

def stableInsert (le : α → α → Bool) (x : α) : List α → List α
  | [] => [x]
  | y :: t => if le y x then y :: stableInsert le x t else x :: y :: t

def stableSort (le : α → α → Bool) (l : List α) : List α :=
  l.foldl (fun acc x => stableInsert le x acc) []

structure FieldInfo where
  field_name : Str
  description : Str
deriving DecidableEq, Repr

structure ValueInfo where
  field_name : Str
  sample_values : List Str
deriving DecidableEq, Repr

structure SchemaInfo where
  table_name : Str
  description : Str
deriving DecidableEq, Repr

structure TableInfo where
  table_name : Str
  description : Str
  priority_score : Nat
  fields : List FieldInfo
  sample_values : List ValueInfo
deriving DecidableEq, Repr

def priorityFields : List Str :=
  [str "TimeGenerated", str "Computer", str "SourceSystem", str "Type",
   str "Category", str "EventID", str "Level", str "LogLevel",
   str "Severity", str "Status", str "State", str "UserName", str "User",
   str "Account", str "IPAddress", str "SourceIP", str "DestinationIP",
   str "ProcessName", str "CommandLine", str "FileName", str "FilePath",
   str "Message"]

def usefulKeywords : List Str :=
  [str "user", str "computer", str "process", str "file", str "ip",
   str "address", str "message", str "event", str "error", str "status"]

def logKeywords : List Str :=
  [str "security", str "event", str "log", str "audit"]

def refinerCommonTables : List Str :=
  [str "securityevent", str "syslog", str "event", str "azureactivity",
   str "signinlogs"]

/-- `SchemaRefiner._calculate_field_priority` in half-point units (source
floats 3.0 / 2.0 / 1.0 / 0.5 become 6 / 4 / 2 / 1); `nl` is already
lower-cased. -/
def calculateFieldPriority (f : FieldInfo) (nl : Str) : Nat :=
  let fn := asciiLowerStr f.field_name
  (if pyIn fn nl then 6 else 0)
  + (if fn ∈ priorityFields.map asciiLowerStr then 4 else 0)
  + (if usefulKeywords.any (fun k => pyIn k fn) then 2 else 0)
  + (if (splitWS nl).any
        (fun w => decide (3 < w.length) && pyIn w (asciiLowerStr f.description))
     then 1 else 0)

/-- `SchemaRefiner._calculate_table_priority` in half-point units (source
floats 1.0 / 2.0 / 1.5 / 0.5 / 0.5 become 2 / 4 / 3 / 1 / 1); `nl` is
already lower-cased. -/
def calculateTablePriority (tableName : Str) (fields : List FieldInfo)
    (nl : Str) : Nat :=
  let tl := asciiLowerStr tableName
  (if logKeywords.any (fun k => pyIn k tl) then 2 else 0)
  + (if pyIn tl nl then 4 else 0)
  + (fields.map (fun f =>
      let fn := asciiLowerStr f.field_name
      (if pyIn fn nl then 3 else 0)
      + (if fn ∈ priorityFields.map asciiLowerStr then 1 else 0))).sum
  + (if tl ∈ refinerCommonTables then 1 else 0)

/-- The table-priority score as the source's float value (a rational). -/
def tablePriorityRat (tableName : Str) (fields : List FieldInfo)
    (nl : Str) : ℚ :=
  (calculateTablePriority tableName fields nl : ℚ) / 2

/-- The selection loop of `SchemaRefiner._prioritize_fields`: walk the fields
in sorted order, stopping at the cap of 15; a field named TimeGenerated is
inserted at the front, priority-list fields are appended once each, and other
fields are appended when their score exceeds 0.5. -/
def fieldsLoop (nl : Str) : List FieldInfo → List FieldInfo → List Str →
    List FieldInfo
  | [], acc, _ => acc
  | f :: rest, acc, included =>
    if 15 ≤ acc.length then acc
    else
      let fn := asciiLowerStr f.field_name
      if fn = str "timegenerated" then
        fieldsLoop nl rest (f :: acc) (fn :: included)
      else if fn ∈ priorityFields.map asciiLowerStr ∧ fn ∉ included then
        fieldsLoop nl rest (acc ++ [f]) (fn :: included)
      else if 1 < calculateFieldPriority f nl then
        fieldsLoop nl rest (acc ++ [f]) included
      else fieldsLoop nl rest acc included

def prioritizeFields (fields : List FieldInfo) (nl : Str) : List FieldInfo :=
  fieldsLoop nl
    (stableSort
      (fun a b => decide (calculateFieldPriority b nl ≤ calculateFieldPriority a nl))
      fields)
    [] []

/- `SchemaRefiner._get_relevant_values` (`nl` is already lower-cased). -/

def valueMatchPred (nl : Str) (s : Str) : Bool :=
  (splitWS nl).any (fun w => decide (2 < w.length) && pyIn w (asciiLowerStr s))

def getRelevantValuesStep (nl : Str) (acc : List ValueInfo) (v : ValueInfo) :
    List ValueInfo :=
  let rel := (v.sample_values.take 5).filter (valueMatchPred nl)
  if rel ≠ [] ∨ acc.length < 3 then
    acc ++ [⟨v.field_name, if rel = [] then v.sample_values.take 5 else rel⟩]
  else acc

def getRelevantValues (tableValues : List ValueInfo) (nl : Str) :
    List ValueInfo :=
  (tableValues.foldl (getRelevantValuesStep nl) []).take 5

/- `SchemaRefiner._prioritize_and_refine_tables`.  `fieldsByTable` and
`valuesByTable` are the insertion-ordered groupings built by
`refine_context`; the schema lookup keeps the last entry per table name, as
the Python dict comprehension does. -/

def schemaLookupDescr (schemas : List SchemaInfo) (t : Str) : Str :=
  match schemas.reverse.find? (fun sc => sc.table_name == t) with
  | some sc => sc.description
  | none => []

def valuesForTable (valuesByTable : List (Str × List ValueInfo)) (t : Str) :
    List ValueInfo :=
  match valuesByTable.find? (fun p => p.1 == t) with
  | some p => p.2
  | none => []

def prioritizeAndRefineTables (fieldsByTable : List (Str × List FieldInfo))
    (valuesByTable : List (Str × List ValueInfo))
    (schemas : List SchemaInfo) (naturalLanguage : Str) : List TableInfo :=
  let nl := asciiLowerStr naturalLanguage
  let refined := fieldsByTable.map (fun p =>
    (⟨p.1, schemaLookupDescr schemas p.1,
      calculateTablePriority p.1 p.2 nl,
      prioritizeFields p.2 nl,
      getRelevantValues (valuesForTable valuesByTable p.1) nl⟩ : TableInfo))
  (stableSort (fun a b => decide (b.priority_score ≤ a.priority_score)) refined).take 5

/- `SchemaRefiner._calculate_query_relevance`. -/

def stopWords : List Str :=
  [str "the", str "a", str "an", str "and", str "or", str "but", str "in",
   str "on", str "at", str "to", str "for", str "of", str "with", str "by",
   str "show", str "get", str "find"]

/-- The stop-word-filtered token set of a text (Python builds a `set` from
`text.lower().split()` and subtracts the stop-word set). -/
def nlTokenSet (s : Str) : Finset Str :=
  (splitWS (asciiLowerStr s)).toFinset \ stopWords.toFinset

def calculateQueryRelevance (similarNL targetNL : Str) : ℚ :=
  let sw := nlTokenSet similarNL
  let tw := nlTokenSet targetNL
  if tw = ∅ then 0
  else
    if sw ∪ tw = ∅ then 0
    else ((sw ∩ tw).card : ℚ) / ((sw ∪ tw).card : ℚ)

/-
Embedding of `MultiRAGWorkflow.generate_kql_with_rag` and
`MultiRAGWorkflow._fallback_generation` from `app/multi_rag_workflow.py`.
The effectful collaborators (the four vector-store searches, and the two
LLM calls `_generate_kql_with_context` / `get_kql_from_nl`) are passed in as
`Except` values: `.error e` stands for the call raising an exception with
message `e`.  The refiner and validator run as the pure embedded functions.
The ground-truth patterns and the `context_used` metadata only feed the
prompt text and a summary dictionary, neither of which any claim inspects,
so the retrieved record carries the three families the result depends on.
-/

structure RetrFieldRec where
  table_name : Str
  field_name : Str
  description : Str
deriving DecidableEq, Repr

structure RetrValueRec where
  table_name : Str
  field_name : Str
  sample_values : List Str
deriving DecidableEq, Repr

structure Retrieved where
  fields : List RetrFieldRec
  vals : List RetrValueRec
  schemas : List SchemaInfo
deriving DecidableEq, Repr

structure GenResult where
  kql_query : Str
  original_kql : Option Str
  is_valid : Bool
  warnings : List Str
  complexity_analysis : Option ComplexityReport
  rag_workflow_used : Bool
deriving DecidableEq, Repr

/-- The `defaultdict(list)` grouping of retrieved field records by table,
in first-insertion key order. -/
def addFieldToGroup (acc : List (Str × List FieldInfo)) (r : RetrFieldRec) :
    List (Str × List FieldInfo) :=
  match acc with
  | [] => [(r.table_name, [⟨r.field_name, r.description⟩])]
  | (k, fs) :: rest =>
    if k = r.table_name then (k, fs ++ [⟨r.field_name, r.description⟩]) :: rest
    else (k, fs) :: addFieldToGroup rest r

def groupFields (rs : List RetrFieldRec) : List (Str × List FieldInfo) :=
  rs.foldl addFieldToGroup []

def addValueToGroup (acc : List (Str × List ValueInfo)) (r : RetrValueRec) :
    List (Str × List ValueInfo) :=
  match acc with
  | [] => [(r.table_name, [⟨r.field_name, r.sample_values⟩])]
  | (k, vs) :: rest =>
    if k = r.table_name then (k, vs ++ [⟨r.field_name, r.sample_values⟩]) :: rest
    else (k, vs) :: addValueToGroup rest r

def groupValues (rs : List RetrValueRec) : List (Str × List ValueInfo) :=
  rs.foldl addValueToGroup []

/-- `MultiRAGWorkflow._fallback_generation`: generate without retrieval
context, validate, and on a second failure return the placeholder result. -/
def fallbackGeneration (fallbackLLM : Except Str Str) : GenResult :=
  match fallbackLLM with
  | .ok kql =>
    let vw := validateAndCorrect kql none
    ⟨vw.1, if kql ≠ vw.1 then some kql else none, vw.2.2, vw.2.1,
     some (getQueryComplexityScore vw.1), false⟩
  | .error e =>
    ⟨str "// Error: Could not generate KQL query", none, false,
     [str "Generation failed: " ++ e], none, false⟩

/-- `MultiRAGWorkflow.generate_kql_with_rag`.  The pair's second component is
the `_initialized` flag after the call (the method never assigns it). -/
def generateKqlWithRag (initializedFlag : Bool) (naturalLanguage : Str)
    (retrieval : Except Str Retrieved) (genWithContext : Except Str Str)
    (fallbackLLM : Except Str Str) : GenResult × Bool :=
  if initializedFlag = false then (fallbackGeneration fallbackLLM, initializedFlag)
  else
    match retrieval with
    | .error _ => (fallbackGeneration fallbackLLM, initializedFlag)
    | .ok r =>
      match genWithContext with
      | .error _ => (fallbackGeneration fallbackLLM, initializedFlag)
      | .ok kql =>
        let refined := prioritizeAndRefineTables (groupFields r.fields)
          (groupValues r.vals) r.schemas naturalLanguage
        let avail := refined.map (fun t => t.table_name)
        let vw := validateAndCorrect kql (some avail)
        (⟨vw.1, if kql ≠ vw.1 then some kql else none, vw.2.2, vw.2.1,
          some (getQueryComplexityScore vw.1), true⟩, initializedFlag)

/-
Claim-side definitions.  `claimedTablePriority` renders the specification's
wording of the table-priority formula (a base term per keyword/table hit plus
a per-field coefficient for substring hits, 0.5 per priority-list field and
0.5 for common tables); the specification states the substring coefficient as
0.5, the code uses 1.5.  `claimedKeptSamples` renders the specification's
wording of the value filter: keep exactly the stored samples whose lower-cased
text contains a query word longer than two characters.
-/

def claimedTablePriority (subCoeff : ℚ) (tableName : Str)
    (fields : List FieldInfo) (nl : Str) : ℚ :=
  let tl := asciiLowerStr tableName
  (if logKeywords.any (fun k => pyIn k tl) then (1 : ℚ) else 0)
  + (if pyIn tl nl then (2 : ℚ) else 0)
  + subCoeff * ((fields.filter (fun f => pyIn (asciiLowerStr f.field_name) nl)).length : ℚ)
  + (1/2 : ℚ) * ((fields.filter
      (fun f => asciiLowerStr f.field_name ∈ priorityFields.map asciiLowerStr)).length : ℚ)
  + (if tl ∈ refinerCommonTables then (1/2 : ℚ) else 0)

def claimedKeptSamples (v : ValueInfo) (nl : Str) : List Str :=
  v.sample_values.filter (valueMatchPred nl)

/- Concrete inputs used by counterexamples and witnesses. -/

def ceFields16 : List FieldInfo :=
  [⟨str "Computer", []⟩, ⟨str "SourceSystem", []⟩, ⟨str "Type", []⟩,
   ⟨str "Category", []⟩, ⟨str "EventID", []⟩, ⟨str "Level", []⟩,
   ⟨str "LogLevel", []⟩, ⟨str "Severity", []⟩, ⟨str "Status", []⟩,
   ⟨str "State", []⟩, ⟨str "UserName", []⟩, ⟨str "User", []⟩,
   ⟨str "Account", []⟩, ⟨str "IPAddress", []⟩, ⟨str "SourceIP", []⟩,
   ⟨str "TimeGenerated", []⟩]

def ceValue6 : ValueInfo :=
  ⟨str "f", [str "aaa", str "bbb", str "ccc", str "ddd", str "eee", str "match"]⟩

def ceValQuad : List ValueInfo :=
  [⟨str "f1", [str "aaa"]⟩, ⟨str "f2", [str "aaa"]⟩,
   ⟨str "f3", [str "aaa"]⟩, ⟨str "f4", [str "aaa"]⟩]

def wVal : ValueInfo := ⟨str "f", [str "xyz"]⟩

/-- A TimeGenerated-named field can only sit at the head of the list: the
shape the amended C3 asserts of every returned field list. -/
def tgFirst (xs : List FieldInfo) : Prop :=
  ∀ g ∈ xs, asciiLowerStr g.field_name = str "timegenerated" →
    ∃ h0, xs.head? = some h0 ∧ asciiLowerStr h0.field_name = str "timegenerated"


set_option maxRecDepth 1000000

/- Helper: splitting the per-field score sum into the two filter counts. -/

theorem natFieldTermSum (nl : Str) (fs : List FieldInfo) :
    (fs.map (fun f =>
        (if pyIn (asciiLowerStr f.field_name) nl then 3 else 0)
        + (if asciiLowerStr f.field_name ∈ priorityFields.map asciiLowerStr
           then 1 else 0))).sum
      = 3 * (fs.filter (fun f => pyIn (asciiLowerStr f.field_name) nl)).length
        + (fs.filter (fun f =>
            asciiLowerStr f.field_name ∈ priorityFields.map asciiLowerStr)).length := by
  induction fs with
  | nil => simp
  | cons f fs ih =>
    simp only [List.map_cons, List.sum_cons, List.filter_cons, ih]
    by_cases h1 : pyIn (asciiLowerStr f.field_name) nl <;>
    by_cases h2 : asciiLowerStr f.field_name ∈ priorityFields.map asciiLowerStr <;>
    simp only [h1, h2, if_true, if_false, decide_True, decide_False,
      eq_self_iff_true, List.length_cons, Bool.false_eq_true] <;>
    omega

/-- Helper: the table-priority float equals the claim-shaped formula with
substring coefficient 1.5. -/
theorem tablePriorityRat_formula (tableName : Str) (fields : List FieldInfo)
    (nl : Str) :
    tablePriorityRat tableName fields nl
      = claimedTablePriority (3/2) tableName fields nl := by
  simp only [tablePriorityRat, calculateTablePriority, claimedTablePriority]
  rw [natFieldTermSum]
  by_cases h1 : (logKeywords.any fun k => pyIn k (asciiLowerStr tableName)) <;>
  by_cases h2 : pyIn (asciiLowerStr tableName) nl <;>
  by_cases h3 : asciiLowerStr tableName ∈ refinerCommonTables <;>
  simp only [h1, h2, h3, if_true, if_false, Bool.false_eq_true] <;>
  push_cast <;> ring

/-- C2 (amended): the table priority score equals 1.0 for a log-domain
keyword in the table name, plus 2.0 when the table name literally appears in
the lower-cased query text, plus 1.5 (not 0.5 as claimed) per candidate
field whose name is a literal substring of the query text, plus 0.5 per
priority-list field, plus 0.5 when the table is in the common-table
allowlist. -/
theorem C2_table_priority_formula (tableName : Str) (fields : List FieldInfo)
    (nl : Str) :
    tablePriorityRat tableName fields nl
      = claimedTablePriority (3/2) tableName fields nl :=
  tablePriorityRat_formula tableName fields nl

/-- C2 counterexample: for table `x` with the single candidate field `user`
and query text `user`, the code scores 2.0 (the field is both a substring
match, worth 1.5, and a priority-list field, worth 0.5) while the claimed
formula with 0.5 per substring field yields 1.0. -/
theorem C2_counterexample :
    tablePriorityRat (str "x") [⟨str "user", []⟩] (str "user") = 2
    ∧ claimedTablePriority (1/2) (str "x") [⟨str "user", []⟩] (str "user") = 1 := by
  constructor
  · have h : calculateTablePriority (str "x") [⟨str "user", []⟩] (str "user") = 4 := by
      decide
    unfold tablePriorityRat
    rw [h]
    norm_num
  · have hkw : (logKeywords.any fun k => pyIn k (asciiLowerStr (str "x"))) = false := by
      decide
    have hin : pyIn (asciiLowerStr (str "x")) (str "user") = false := by decide
    have hmem : asciiLowerStr (str "x") ∉ refinerCommonTables := by decide
    have hf1 : (List.filter (fun f => pyIn (asciiLowerStr f.field_name) (str "user"))
        [(⟨str "user", []⟩ : FieldInfo)]).length = 1 := by decide
    have hf2 : (List.filter (fun f =>
          asciiLowerStr f.field_name ∈ priorityFields.map asciiLowerStr)
        [(⟨str "user", []⟩ : FieldInfo)]).length = 1 := by decide
    simp only [claimedTablePriority, hkw, hin, hf1, hf2, if_neg hmem,
      Bool.false_eq_true, if_false]
    norm_num

/-- C1: the validator is a pure total function by construction in this
embedding (every stage is a terminating function, so no call can fail); the
returned triple always consists of a corrected text, the accumulated
warnings, and the final-validation verdict computed on that corrected text;
and on the degenerate input `(` it returns the input unchanged with
`is_valid = false` (so the worst case is the input text back with a false
validity flag, never an exception). -/
theorem C1_validator_total :
    (∀ (q : Str) (ts : Option (List Str)),
      ∃ c w, validateAndCorrect q ts = (c, w, finalValidation c))
    ∧ validateAndCorrect (str "(") none =
        (str "(",
         [str "Consider adding a TimeGenerated filter for better performance"],
         false) := by
  constructor
  · intro q ts
    unfold validateAndCorrect
    exact ⟨_, _, rfl⟩
  · decide

/-- C8 (amended): the Jaccard relevance score is symmetric, lies in [0,1],
and equals 1.0 whenever the two texts have identical and NON-EMPTY token
sets after stop-word removal (for identical empty token sets the guard
`if not target_words` returns 0.0 instead). -/
theorem C8_jaccard_properties (a b : Str) :
    calculateQueryRelevance a b = calculateQueryRelevance b a
    ∧ 0 ≤ calculateQueryRelevance a b
    ∧ calculateQueryRelevance a b ≤ 1
    ∧ (nlTokenSet a = nlTokenSet b → nlTokenSet a ≠ ∅ →
        calculateQueryRelevance a b = 1) := by
  refine ⟨?_, ?_, ?_, ?_⟩
  · simp only [calculateQueryRelevance]
    by_cases hB : nlTokenSet b = ∅ <;> by_cases hA : nlTokenSet a = ∅
    · simp [hA, hB]
    · simp [hA, hB, Finset.empty_union]
    · simp [hA, hB, Finset.union_empty, Finset.inter_empty]
    · rw [if_neg hB, if_neg hA]
      have hu : ¬ (nlTokenSet a ∪ nlTokenSet b = ∅) := by
        intro h
        exact hA (Finset.union_eq_empty.mp h).1
      have hu2 : ¬ (nlTokenSet b ∪ nlTokenSet a = ∅) := by
        intro h
        exact hA (Finset.union_eq_empty.mp h).2
      rw [if_neg hu, if_neg hu2, Finset.inter_comm, Finset.union_comm]
  · simp only [calculateQueryRelevance]
    split_ifs with h1 h2
    · exact le_refl 0
    · exact le_refl 0
    · positivity
  · simp only [calculateQueryRelevance]
    split_ifs with h1 h2
    · exact zero_le_one
    · exact zero_le_one
    · have hpos : 0 < ((nlTokenSet a ∪ nlTokenSet b).card : ℚ) := by
        have : (nlTokenSet a ∪ nlTokenSet b).Nonempty :=
          Finset.nonempty_iff_ne_empty.mpr h2
        exact_mod_cast Finset.card_pos.mpr this
      rw [div_le_one hpos]
      exact_mod_cast Finset.card_le_card Finset.inter_subset_union
  · intro hab hne
    simp only [calculateQueryRelevance]
    rw [if_neg (hab ▸ hne), ← hab, Finset.inter_self, Finset.union_self,
      if_neg hne]
    have hpos : (0 : ℚ) < (nlTokenSet a).card := by
      exact_mod_cast Finset.card_pos.mpr (Finset.nonempty_iff_ne_empty.mpr hne)
    exact div_self (ne_of_gt hpos)

/-- C8 counterexample: the two texts `the` have identical token sets after
stop-word removal (both empty), yet the relevance score is 0.0, not 1.0. -/
theorem C8_counterexample :
    nlTokenSet (str "the") = ∅
    ∧ calculateQueryRelevance (str "the") (str "the") = 0
    ∧ (0 : ℚ) ≠ 1 := by
  refine ⟨by decide, ?_, by norm_num⟩
  simp only [calculateQueryRelevance]
  rw [if_pos (by decide)]

/-- C8 witness: on the identical one-token texts `hello` the theorem yields
relevance exactly 1. -/
theorem C8_jaccard_witness :
    calculateQueryRelevance (str "hello") (str "hello") = 1 :=
  (C8_jaccard_properties (str "hello") (str "hello")).2.2.2 rfl (by decide)

/-- Helper: every entry produced by the `_get_relevant_values` loop comes
from some input record, keeps its field name, and carries either the
matching samples among the first five stored ones or, when none match, the
first five stored samples. -/
theorem getRelevantValues_fold_mem (nl : Str) (l : List ValueInfo) :
    ∀ (acc : List ValueInfo) (e : ValueInfo),
      e ∈ l.foldl (getRelevantValuesStep nl) acc →
      e ∈ acc ∨ ∃ v ∈ l, e.field_name = v.field_name ∧
        e.sample_values =
          (if (v.sample_values.take 5).filter (valueMatchPred nl) = []
           then v.sample_values.take 5
           else (v.sample_values.take 5).filter (valueMatchPred nl)) := by
  induction l with
  | nil => intro acc e he; exact Or.inl he
  | cons v l ih =>
    intro acc e he
    simp only [List.foldl_cons] at he
    rcases ih _ e he with hacc | ⟨v', hv', hsh⟩
    · simp only [getRelevantValuesStep] at hacc
      split at hacc
      · rcases List.mem_append.mp hacc with h1 | h2
        · exact Or.inl h1
        · obtain rfl := List.mem_singleton.mp h2
          refine Or.inr ⟨v, List.mem_cons_self v l, rfl, ?_⟩
          by_cases hrel : (v.sample_values.take 5).filter (valueMatchPred nl) = [] <;>
            simp [hrel]
      · exact Or.inl hacc
    · exact Or.inr ⟨v', List.mem_cons_of_mem _ hv', hsh⟩

/-- C7 (amended): the value filter returns at most five entries; each kept
entry keeps exactly those of the FIRST FIVE stored samples whose lower-cased
text contains a query word longer than two characters and, when none of
those five match, the first five raw samples as a default (entries with no
matching sample are kept only while fewer than three entries have been
collected); a kept entry never has an empty sample list when the stored
list is non-empty. -/
theorem C7_value_filter (tvs : List ValueInfo) (nl : Str) :
    (getRelevantValues tvs nl).length ≤ 5
    ∧ ∀ e ∈ getRelevantValues tvs nl, ∃ v ∈ tvs,
        e.field_name = v.field_name
        ∧ e.sample_values =
            (if (v.sample_values.take 5).filter (valueMatchPred nl) = []
             then v.sample_values.take 5
             else (v.sample_values.take 5).filter (valueMatchPred nl))
        ∧ (v.sample_values ≠ [] → e.sample_values ≠ []) := by
  constructor
  · exact List.length_take_le 5 _
  · intro e he
    have hmem := getRelevantValues_fold_mem nl tvs []
      e (List.mem_of_mem_take he)
    rcases hmem with he' | ⟨v, hv, hn, hs⟩
    · cases he'
    · refine ⟨v, hv, hn, hs, ?_⟩
      intro hvs
      rw [hs]
      split_ifs with hrel
      · intro h
        rcases List.take_eq_nil_iff.mp h with h5 | h0
        · cases h5
        · exact hvs h0
      · exact hrel

/-- C7 counterexample: with stored samples `aaa bbb ccc ddd eee match` and
query word `match`, only the sixth sample matches, but the code scans only
the first five, finds nothing, and keeps all five non-matching defaults,
while the claim asks for exactly the matching samples; and with four
no-match records the fourth is dropped entirely rather than kept with
defaults. -/
theorem C7_counterexample :
    getRelevantValues [ceValue6] (str "match")
      = [⟨str "f", [str "aaa", str "bbb", str "ccc", str "ddd", str "eee"]⟩]
    ∧ claimedKeptSamples ceValue6 (str "match") = [str "match"]
    ∧ (getRelevantValues ceValQuad (str "zzzz")).length = 3 :=
  ⟨by decide, by decide, by decide⟩

/-- C7 witness: applying the theorem to a single record with one sample and
an empty query keeps the record with its (first five) samples. -/
theorem C7_value_filter_witness :
    ∃ v ∈ [wVal], (wVal.field_name = v.field_name)
      ∧ wVal.sample_values =
          (if (v.sample_values.take 5).filter (valueMatchPred []) = []
           then v.sample_values.take 5
           else (v.sample_values.take 5).filter (valueMatchPred []))
      ∧ (v.sample_values ≠ [] → wVal.sample_values ≠ []) :=
  (C7_value_filter [wVal] []).2 wVal (by decide)

/- Helper lemmas on `pyCount`: a pattern longer than the text never occurs,
and appending text never removes occurrences (the greedy left-to-right scan
of a prefix is undisturbed by what follows). -/

theorem pyCount_eq_zero_of_short (pat : Str) :
    ∀ s : Str, s.length < pat.length → pyCount pat s = 0 := by
  intro s
  induction s with
  | nil => intro _; rw [pyCount]
  | cons c t ih =>
    intro h
    rw [pyCount, if_neg, ih (by simpa using Nat.lt_of_succ_lt h)]
    intro hpre
    have := (List.isPrefixOf_iff_prefix.mp hpre).length_le
    simp only [List.length_cons] at h this
    omega

theorem pyCount_append_le_aux (pat b : Str) :
    ∀ (n : Nat) (a : Str), a.length ≤ n →
      pyCount pat a ≤ pyCount pat (a ++ b) := by
  intro n
  induction n with
  | zero =>
    intro a ha
    obtain rfl : a = [] := List.length_eq_zero.mp (Nat.le_zero.mp ha)
    rw [pyCount]
    exact Nat.zero_le _
  | succ n ih =>
    intro a ha
    match a with
    | [] => rw [pyCount]; exact Nat.zero_le _
    | c :: t =>
      simp only [List.cons_append]
      by_cases h1 : pat.isPrefixOf (c :: t)
      · have h1' : pat.isPrefixOf (c :: (t ++ b)) := by
          rw [List.isPrefixOf_iff_prefix]
          exact (List.isPrefixOf_iff_prefix.mp h1).trans
            (by
              rw [show c :: (t ++ b) = (c :: t) ++ b from rfl]
              exact List.prefix_append _ _)
        have hlen : pat.length - 1 ≤ t.length := by
          have := (List.isPrefixOf_iff_prefix.mp h1).length_le
          simp only [List.length_cons] at this
          omega
        rw [pyCount, pyCount, if_pos h1, if_pos h1',
          List.drop_append_of_le_length hlen]
        have hrec := ih (t.drop (pat.length - 1))
          (by
            simp only [List.length_drop, List.length_cons] at ha ⊢
            omega)
        omega
      · by_cases h2 : pat.isPrefixOf (c :: (t ++ b))
        · have hl : (c :: t).length < pat.length := by
            by_contra hc
            push_neg at hc
            apply h1
            rw [List.isPrefixOf_iff_prefix]
            obtain ⟨r, hr⟩ := List.isPrefixOf_iff_prefix.mp h2
            have hpat : pat = ((c :: t) ++ b).take pat.length := by
              rw [show (c :: t) ++ b = c :: (t ++ b) from rfl, ← hr,
                List.take_left]
            rw [hpat, List.take_append_of_le_length hc]
            exact List.take_prefix _ _
          rw [pyCount_eq_zero_of_short pat (c :: t) hl]
          exact Nat.zero_le _
        · rw [pyCount, pyCount, if_neg h1, if_neg h2]
          exact ih t (by simpa using Nat.le_of_succ_le_succ ha)

theorem pyCount_le_append (pat a b : Str) :
    pyCount pat a ≤ pyCount pat (a ++ b) :=
  pyCount_append_le_aux pat b a.length a (le_refl _)

/-- C9: the complexity score is non-negative (it is a sum of occurrence
counts, embedded as a natural number) and appending any suffix — in
particular any sequence of recognized operator keywords — never decreases
it, because every keyword count of a prefix survives in the whole text. -/
theorem C9_complexity_monotone (q s : Str) :
    0 ≤ (getQueryComplexityScore q).complexity_score
    ∧ (getQueryComplexityScore q).complexity_score
        ≤ (getQueryComplexityScore (q ++ s)).complexity_score := by
  refine ⟨Nat.zero_le _, ?_⟩
  have hmap : asciiLowerStr (q ++ s) = asciiLowerStr q ++ asciiLowerStr s :=
    List.map_append _ _ _
  simp only [getQueryComplexityScore, hmap]
  have h1 := pyCount_le_append (str "where") (asciiLowerStr q) (asciiLowerStr s)
  have h2 := pyCount_le_append (str "project") (asciiLowerStr q) (asciiLowerStr s)
  have h3 := pyCount_le_append (str "summarize") (asciiLowerStr q) (asciiLowerStr s)
  have h4 := pyCount_le_append (str "join") (asciiLowerStr q) (asciiLowerStr s)
  have h5 := pyCount_le_append (str "union") (asciiLowerStr q) (asciiLowerStr s)
  have h6 := pyCount_le_append (str "order by") (asciiLowerStr q) (asciiLowerStr s)
  have h7 := pyCount_le_append (str "sort by") (asciiLowerStr q) (asciiLowerStr s)
  have h8 := pyCount_le_append (str "take") (asciiLowerStr q) (asciiLowerStr s)
  have h9 := pyCount_le_append (str "limit") (asciiLowerStr q) (asciiLowerStr s)
  omega

/-- C4: if retrieval or generation raises during the Ready path, the
orchestrator returns exactly the fallback result without touching the
initialized flag; the flag is returned unchanged on every path; and when the
fallback generator itself raises, the result is the placeholder whose query
is the invalid-query comment, whose validity flag is false and whose warning
list carries the failure reason — the function is total, so no exception
ever reaches the caller. -/
theorem C4_ready_path_degrades (init : Bool) (nl : Str)
    (retr : Except Str Retrieved) (gen fb : Except Str Str) (e : Str) :
    ((retr = Except.error e ∨ gen = Except.error e) →
      generateKqlWithRag init nl retr gen fb = (fallbackGeneration fb, init))
    ∧ (generateKqlWithRag init nl retr gen fb).2 = init
    ∧ ((fallbackGeneration (Except.error e)).kql_query
          = str "// Error: Could not generate KQL query"
        ∧ (fallbackGeneration (Except.error e)).is_valid = false
        ∧ (fallbackGeneration (Except.error e)).warnings
            = [str "Generation failed: " ++ e]) := by
  refine ⟨?_, ?_, rfl, rfl, rfl⟩
  · intro h
    cases init with
    | false => rfl
    | true =>
      cases retr with
      | error e' => rfl
      | ok r =>
        cases gen with
        | error e' => rfl
        | ok kql =>
          rcases h with h | h <;> cases h
  · cases init with
    | false => rfl
    | true =>
      cases retr with
      | error e' => rfl
      | ok r =>
        cases gen with
        | error e' => rfl
        | ok kql => rfl

/-- C4 witness: a concrete Ready-path retrieval failure degrades to the
fallback, and a failing fallback produces the placeholder. -/
theorem C4_ready_path_witness :
    generateKqlWithRag true [] (Except.error (str "search down"))
        (Except.ok []) (Except.error (str "llm down"))
      = (fallbackGeneration (Except.error (str "llm down")), true)
    ∧ (fallbackGeneration (Except.error (str "llm down"))).is_valid = false :=
  ⟨(C4_ready_path_degrades true [] (Except.error (str "search down"))
      (Except.ok []) (Except.error (str "llm down")) (str "search down")).1
    (Or.inl rfl),
   ((C4_ready_path_degrades true [] (Except.error (str "search down"))
      (Except.ok []) (Except.error (str "llm down")) (str "llm down")).2.2).2.1⟩

/- Helper lemmas for the stable insertion sort and the field-selection loop. -/

theorem mem_stableInsert (le : α → α → Bool) (x y : α) (l : List α) :
    y ∈ stableInsert le x l ↔ y = x ∨ y ∈ l := by
  induction l with
  | nil => simp [stableInsert]
  | cons z t ih =>
    simp only [stableInsert]
    split
    · simp only [List.mem_cons, ih]
      tauto
    · simp only [List.mem_cons]
      try tauto

theorem mem_stableSort_aux (le : α → α → Bool) (y : α) :
    ∀ (l acc : List α),
      y ∈ l.foldl (fun a x => stableInsert le x a) acc ↔ y ∈ acc ∨ y ∈ l := by
  intro l
  induction l with
  | nil => simp
  | cons x t ih =>
    intro acc
    simp only [List.foldl_cons, ih, mem_stableInsert, List.mem_cons]
    tauto

theorem mem_stableSort (le : α → α → Bool) (y : α) (l : List α) :
    y ∈ stableSort le l ↔ y ∈ l := by
  unfold stableSort
  rw [mem_stableSort_aux]
  simp

theorem fieldsLoop_length_le (nl : Str) :
    ∀ (l acc : List FieldInfo) (inc : List Str), acc.length ≤ 15 →
      (fieldsLoop nl l acc inc).length ≤ 15 := by
  intro l
  induction l with
  | nil => intro acc inc h; simpa [fieldsLoop] using h
  | cons f rest ih =>
    intro acc inc h
    simp only [fieldsLoop]
    split_ifs with h15 htg hpri hsc
    · exact h
    · exact ih _ _ (by simp only [List.length_cons]; omega)
    · exact ih _ _ (by simp only [List.length_append, List.length_singleton]; omega)
    · exact ih _ _ (by simp only [List.length_append, List.length_singleton]; omega)
    · exact ih _ _ h

theorem fieldsLoop_tgFirst (nl : Str) :
    ∀ (l acc : List FieldInfo) (inc : List Str), tgFirst acc →
      tgFirst (fieldsLoop nl l acc inc) := by
  intro l
  induction l with
  | nil => intro acc inc h; simpa [fieldsLoop] using h
  | cons f rest ih =>
    intro acc inc h
    simp only [fieldsLoop]
    split_ifs with h15 htg hpri hsc
    · exact h
    · exact ih _ _ (fun g _ _ => ⟨f, rfl, htg⟩)
    · refine ih _ _ (fun g hg hgtg => ?_)
      rcases List.mem_append.mp hg with h1 | h2
      · obtain ⟨h0, hh, hh2⟩ := h g h1 hgtg
        refine ⟨h0, ?_, hh2⟩
        cases acc with
        | nil => cases h1
        | cons a t => simpa using hh
      · obtain rfl := List.mem_singleton.mp h2
        exact absurd hgtg htg
    · refine ih _ _ (fun g hg hgtg => ?_)
      rcases List.mem_append.mp hg with h1 | h2
      · obtain ⟨h0, hh, hh2⟩ := h g h1 hgtg
        refine ⟨h0, ?_, hh2⟩
        cases acc with
        | nil => cases h1
        | cons a t => simpa using hh
      · obtain rfl := List.mem_singleton.mp h2
        exact absurd hgtg htg
    · exact ih _ _ h

theorem prioritizeFields_length_le (fields : List FieldInfo) (nl : Str) :
    (prioritizeFields fields nl).length ≤ 15 :=
  fieldsLoop_length_le nl _ [] [] (by simp)

theorem prioritizeFields_tgFirst (fields : List FieldInfo) (nl : Str) :
    tgFirst (prioritizeFields fields nl) :=
  fieldsLoop_tgFirst nl _ [] [] (fun g hg _ => absurd hg (List.not_mem_nil g))

/-- C3 (amended): the refiner returns at most 5 tables and at most 15 fields
per table, and whenever a TimeGenerated-named field APPEARS IN a table's
returned field list it is the first entry.  (The claim's stronger promise —
that a TimeGenerated candidate is always placed first — fails: the selection
loop caps at 15 fields walking the score-sorted order, so a TimeGenerated
candidate behind 15 better-scoring fields is dropped altogether.) -/
theorem C3_refiner_caps (fbt : List (Str × List FieldInfo))
    (vbt : List (Str × List ValueInfo)) (schemas : List SchemaInfo)
    (nl : Str) :
    (prioritizeAndRefineTables fbt vbt schemas nl).length ≤ 5
    ∧ ∀ ti ∈ prioritizeAndRefineTables fbt vbt schemas nl,
        ti.fields.length ≤ 15 ∧ tgFirst ti.fields := by
  constructor
  · exact List.length_take_le _ _
  · intro ti hti
    simp only [prioritizeAndRefineTables] at hti
    have h2 := (mem_stableSort _ ti _).mp (List.mem_of_mem_take hti)
    obtain ⟨p, hp, hpe⟩ := List.mem_map.mp h2
    have hfe : ti.fields = prioritizeFields p.2 (asciiLowerStr nl) := by
      rw [← hpe]
    rw [hfe]
    exact ⟨prioritizeFields_length_le _ _, prioritizeFields_tgFirst _ _⟩

/-- C3 counterexample: a table whose 16 candidate fields are fifteen
priority-list fields followed by TimeGenerated.  Every other field scores at
least as high as TimeGenerated, so the stable descending sort keeps
TimeGenerated last, the selection loop fills all 15 slots before reaching
it, and the returned field list contains no TimeGenerated at all — the
claim's "always placed first" fails. -/
theorem C3_counterexample :
    (∃ g ∈ ceFields16, asciiLowerStr g.field_name = str "timegenerated")
    ∧ ∀ ti ∈ prioritizeAndRefineTables [(str "T", ceFields16)] [] [] [],
        ∀ g ∈ ti.fields, asciiLowerStr g.field_name ≠ str "timegenerated" := by
  decide

/-- C3 witness: on a single table with a single TimeGenerated candidate the
theorem's caps hold and the returned head is the TimeGenerated field. -/
theorem C3_refiner_caps_witness :
    (prioritizeAndRefineTables [(str "T", [⟨str "TimeGenerated", []⟩])] [] [] []).length ≤ 5
    ∧ (⟨str "T", [], 1, [⟨str "TimeGenerated", []⟩], []⟩ : TableInfo).fields.length ≤ 15
    ∧ ∃ h0, (⟨str "T", [], 1, [⟨str "TimeGenerated", []⟩], []⟩ : TableInfo).fields.head?
          = some h0 ∧ asciiLowerStr h0.field_name = str "timegenerated" :=
  ⟨(C3_refiner_caps [(str "T", [⟨str "TimeGenerated", []⟩])] [] [] []).1,
   ((C3_refiner_caps [(str "T", [⟨str "TimeGenerated", []⟩])] [] [] []).2
      ⟨str "T", [], 1, [⟨str "TimeGenerated", []⟩], []⟩ (by decide)).1,
   ((C3_refiner_caps [(str "T", [⟨str "TimeGenerated", []⟩])] [] [] []).2
      ⟨str "T", [], 1, [⟨str "TimeGenerated", []⟩], []⟩ (by decide)).2
     ⟨str "TimeGenerated", []⟩ (by decide) (by decide)⟩

/- Helper lemmas characterizing `str.replace(old, new, 1)`. -/

theorem pyReplaceFirst_of_isPrefixOf (pat rep s : Str)
    (h : pat.isPrefixOf s = true) :
    pyReplaceFirst pat rep s = rep ++ s.drop pat.length := by
  cases s with
  | nil =>
    have hp : pat = [] := by
      obtain ⟨r, hr⟩ := List.isPrefixOf_iff_prefix.mp h
      exact (List.append_eq_nil.mp hr).1
    subst hp
    simp [pyReplaceFirst, List.isPrefixOf]
  | cons c t => rw [pyReplaceFirst, if_pos h]

theorem pyReplaceFirst_no_occ (pat rep : Str) :
    ∀ s : Str, (¬ ∃ a b, s = a ++ pat ++ b) → pyReplaceFirst pat rep s = s := by
  intro s
  induction s with
  | nil =>
    intro hno
    rw [pyReplaceFirst, if_neg]
    intro hp
    obtain ⟨r, hr⟩ := List.isPrefixOf_iff_prefix.mp hp
    exact hno ⟨[], r, by simp [← hr]⟩
  | cons c t ih =>
    intro hno
    rw [pyReplaceFirst, if_neg]
    · rw [ih (fun ⟨a, b, hab⟩ => hno ⟨c :: a, b, by simp [hab]⟩)]
    · intro hp
      obtain ⟨r, hr⟩ := List.isPrefixOf_iff_prefix.mp hp
      exact hno ⟨[], r, by simp [← hr]⟩

theorem pyReplaceFirst_first_occ (pat rep : Str) :
    ∀ (a b : Str),
      (∀ a' b', a ++ pat ++ b = a' ++ pat ++ b' → a.length ≤ a'.length) →
      pyReplaceFirst pat rep (a ++ pat ++ b) = a ++ rep ++ b := by
  intro a
  induction a with
  | nil =>
    intro b _
    simp only [List.nil_append]
    rw [pyReplaceFirst_of_isPrefixOf pat rep _
        (List.isPrefixOf_iff_prefix.mpr (List.prefix_append _ _)),
      List.drop_left]
  | cons c a' ih =>
    intro b hmin
    have hnp : ¬ pat.isPrefixOf (c :: (a' ++ pat ++ b)) = true := by
      intro hp
      obtain ⟨r, hr⟩ := List.isPrefixOf_iff_prefix.mp hp
      have heq : (c :: a') ++ pat ++ b = [] ++ pat ++ r := by
        simp only [List.nil_append, List.cons_append, List.append_assoc]
        simpa [List.append_assoc] using hr.symm
      have := hmin [] r heq
      simp at this
    simp only [List.cons_append]
    rw [pyReplaceFirst, if_neg hnp,
      ih b (fun a'' b' h => by
        have := hmin (c :: a'') b'
          (by simpa [List.cons_append] using congrArg (List.cons c) h)
        simpa using this)]

/-- C10: table-name correction rewrites exactly the FIRST occurrence of the
misspelled name as a substring of the whole query text (one replacement per
correction): a string with no occurrence is unchanged, the occurrence with
the shortest prefix is the one replaced, and on the query
`// Tble here\nTble\n| where x` with allowlist [Table] the occurrence inside
the leading comment is rewritten while the actual table line keeps `Tble`. -/
theorem C10_replace_first_occurrence :
    (∀ (pat rep s : Str), (¬ ∃ a b, s = a ++ pat ++ b) →
      pyReplaceFirst pat rep s = s)
    ∧ (∀ (pat rep a b : Str),
        (∀ a' b', a ++ pat ++ b = a' ++ pat ++ b' → a.length ≤ a'.length) →
        pyReplaceFirst pat rep (a ++ pat ++ b) = a ++ rep ++ b)
    ∧ checkTableNames (str "// Tble here\nTble\n| where x") (some [str "Table"])
        = (str "// Table here\nTble\n| where x",
           [tableCorrWarnA (str "Tble") (str "Table")]) :=
  ⟨pyReplaceFirst_no_occ, pyReplaceFirst_first_occ, by decide⟩

/-- C10 witness: in `zabab` the first occurrence of `ab` (after the prefix
`z`) is the one replaced by `X`. -/
theorem C10_replace_first_witness :
    pyReplaceFirst ['a', 'b'] ['X'] ['z', 'a', 'b', 'a', 'b']
      = ['z'] ++ ['X'] ++ ['a', 'b'] :=
  C10_replace_first_occurrence.2.1 ['a', 'b'] ['X'] ['z'] ['a', 'b']
    (fun a' b' h => by
      match a' with
      | [] =>
        simp only [List.nil_append, List.cons_append, List.append_assoc] at h
        injection h with h1 _
        exact absurd h1 (by decide)
      | c :: t => simp)

/-- Helper: the Levenshtein scan of `_find_closest_table` keeps the first
strict minimum among candidates at distance at most 2: a `none` result means
every scanned candidate (and the accumulator) is out of range, and a `some`
result is in range, minimal over the scanned list, and no worse than the
accumulator. -/
theorem levScan_spec (tl : Str) :
    ∀ (l : List Str) (best : Option (Str × Nat)),
      (∀ r d, best = some (r, d) →
        d = levenshteinDistance tl (asciiLowerStr r) ∧ d ≤ 2) →
      ((levScan tl l best = none → best = none ∧
          ∀ t ∈ l, 2 < levenshteinDistance tl (asciiLowerStr t))
       ∧ (∀ r d, levScan tl l best = some (r, d) →
            d = levenshteinDistance tl (asciiLowerStr r) ∧ d ≤ 2
            ∧ (r ∈ l ∨ best = some (r, d))
            ∧ (∀ t ∈ l, d ≤ levenshteinDistance tl (asciiLowerStr t))
            ∧ (∀ s ds, best = some (s, ds) → d ≤ ds))) := by
  intro l
  induction l with
  | nil =>
    intro best hbest
    constructor
    · intro h
      simp only [levScan] at h
      exact ⟨h, fun t ht => absurd ht (List.not_mem_nil t)⟩
    · intro r d h
      simp only [levScan] at h
      obtain ⟨hd, hd2⟩ := hbest r d h
      refine ⟨hd, hd2, Or.inr h, fun t ht => absurd ht (List.not_mem_nil t),
        fun s ds hs => ?_⟩
      rw [h] at hs
      simp only [Option.some.injEq, Prod.mk.injEq] at hs
      omega
  | cons t0 l ih =>
    intro best hbest
    simp only [levScan]
    cases best with
    | none =>
      simp only [decide_eq_true_eq]
      by_cases hle : levenshteinDistance tl (asciiLowerStr t0) ≤ 2
      · rw [if_pos hle]
        have hb' : ∀ r d,
            some (t0, levenshteinDistance tl (asciiLowerStr t0)) = some (r, d) →
            d = levenshteinDistance tl (asciiLowerStr r) ∧ d ≤ 2 := by
          intro r d h
          simp only [Option.some.injEq, Prod.mk.injEq] at h
          obtain ⟨hr, hd⟩ := h
          subst hr
          subst hd
          exact ⟨rfl, hle⟩
        constructor
        · intro hres
          obtain ⟨habs, _⟩ := (ih _ hb').1 hres
          cases habs
        · intro r d hres
          obtain ⟨h1, h2, h3, h4, h5⟩ := (ih _ hb').2 r d hres
          refine ⟨h1, h2, ?_, ?_, fun s ds hs => Option.noConfusion hs⟩
          · rcases h3 with h3 | h3
            · exact Or.inl (List.mem_cons_of_mem _ h3)
            · simp only [Option.some.injEq, Prod.mk.injEq] at h3
              exact Or.inl (h3.1 ▸ List.mem_cons_self t0 l)
          · intro t ht
            rcases List.mem_cons.mp ht with rfl | ht'
            · exact h5 t (levenshteinDistance tl (asciiLowerStr t)) rfl
            · exact h4 t ht'
      · rw [if_neg hle]
        have hb' : ∀ (r : Str) (d : Nat), (none : Option (Str × Nat)) = some (r, d) →
            d = levenshteinDistance tl (asciiLowerStr r) ∧ d ≤ 2 :=
          fun r d h => Option.noConfusion h
        constructor
        · intro hres
          obtain ⟨_, hall⟩ := (ih none hb').1 hres
          refine ⟨by trivial, fun t ht => ?_⟩
          rcases List.mem_cons.mp ht with rfl | ht'
          · omega
          · exact hall t ht'
        · intro r d hres
          obtain ⟨h1, h2, h3, h4, h5⟩ := (ih none hb').2 r d hres
          refine ⟨h1, h2, ?_, ?_, fun s ds hs => Option.noConfusion hs⟩
          · rcases h3 with h3 | h3
            · exact Or.inl (List.mem_cons_of_mem _ h3)
            · exact absurd h3 (fun h => Option.noConfusion h)
          · intro t ht
            rcases List.mem_cons.mp ht with rfl | ht'
            · omega
            · exact h4 t ht'
    | some p0 =>
      obtain ⟨s0, ds0⟩ := p0
      obtain ⟨hds0e, hds0le⟩ := hbest s0 ds0 rfl
      simp only [Bool.and_eq_true, decide_eq_true_eq]
      by_cases hupd : levenshteinDistance tl (asciiLowerStr t0) < ds0 ∧
          levenshteinDistance tl (asciiLowerStr t0) ≤ 2
      · rw [if_pos hupd]
        have hb' : ∀ r d,
            some (t0, levenshteinDistance tl (asciiLowerStr t0)) = some (r, d) →
            d = levenshteinDistance tl (asciiLowerStr r) ∧ d ≤ 2 := by
          intro r d h
          simp only [Option.some.injEq, Prod.mk.injEq] at h
          obtain ⟨hr, hd⟩ := h
          subst hr
          subst hd
          exact ⟨rfl, hupd.2⟩
        constructor
        · intro hres
          obtain ⟨habs, _⟩ := (ih _ hb').1 hres
          cases habs
        · intro r d hres
          obtain ⟨h1, h2, h3, h4, h5⟩ := (ih _ hb').2 r d hres
          have hdd0 : d ≤ levenshteinDistance tl (asciiLowerStr t0) :=
            h5 t0 (levenshteinDistance tl (asciiLowerStr t0)) rfl
          refine ⟨h1, h2, ?_, ?_, ?_⟩
          · rcases h3 with h3 | h3
            · exact Or.inl (List.mem_cons_of_mem _ h3)
            · simp only [Option.some.injEq, Prod.mk.injEq] at h3
              exact Or.inl (h3.1 ▸ List.mem_cons_self t0 l)
          · intro t ht
            rcases List.mem_cons.mp ht with rfl | ht'
            · exact hdd0
            · exact h4 t ht'
          · intro s ds hs
            simp only [Option.some.injEq, Prod.mk.injEq] at hs
            omega
      · rw [if_neg hupd]
        constructor
        · intro hres
          obtain ⟨habs, _⟩ := (ih _ hbest).1 hres
          cases habs
        · intro r d hres
          obtain ⟨h1, h2, h3, h4, h5⟩ := (ih _ hbest).2 r d hres
          have hds : d ≤ ds0 := h5 s0 ds0 rfl
          refine ⟨h1, h2, ?_, ?_, ?_⟩
          · rcases h3 with h3 | h3
            · exact Or.inl (List.mem_cons_of_mem _ h3)
            · exact Or.inr h3
          · intro t ht
            rcases List.mem_cons.mp ht with rfl | ht'
            · omega
            · exact h4 t ht'
          · intro s ds hs
            simp only [Option.some.injEq, Prod.mk.injEq] at hs
            omega

/-- C6: the three-tier matcher in fixed order with the concrete example.
Conjunct 1: the claimed example — `SecurityEven | where x` with allowlist
[SecurityEvent] is corrected to `SecurityEvent` with a table-correction
warning (plus the time-filter advisory) and validates.  Conjunct 2: when a
case-insensitive exact match exists it is returned.  Conjunct 3: with no
exact match, a substring match (either direction) is returned when one
exists.  Conjunct 4: with neither, any returned candidate is within edit
distance 2 and of minimal distance, and when every candidate is farther
than 2 the matcher returns none — and `_check_table_names` then emits the
not-found warning, shown on a concrete query. -/
theorem C6_three_tier_matcher (name : Str) (ts : List Str) :
    validateAndCorrect (str "SecurityEven | where x") (some [str "SecurityEvent"])
      = (str "SecurityEvent | where x",
         [tableCorrWarnA (str "SecurityEven") (str "SecurityEvent"),
          str "Consider adding a TimeGenerated filter for better performance"],
         true)
    ∧ ((∃ t ∈ ts, asciiLowerStr t = asciiLowerStr name) →
        ∃ r, findClosestTable name ts = some r ∧ r ∈ ts ∧
          asciiLowerStr r = asciiLowerStr name)
    ∧ ((∀ t ∈ ts, asciiLowerStr t ≠ asciiLowerStr name) →
       (∃ t ∈ ts, (pyIn (asciiLowerStr name) (asciiLowerStr t)
          || pyIn (asciiLowerStr t) (asciiLowerStr name)) = true) →
        ∃ r, findClosestTable name ts = some r ∧ r ∈ ts ∧
          (pyIn (asciiLowerStr name) (asciiLowerStr r)
            || pyIn (asciiLowerStr r) (asciiLowerStr name)) = true)
    ∧ ((∀ t ∈ ts, asciiLowerStr t ≠ asciiLowerStr name) →
       (∀ t ∈ ts, (pyIn (asciiLowerStr name) (asciiLowerStr t)
          || pyIn (asciiLowerStr t) (asciiLowerStr name)) = false) →
        (∀ r, findClosestTable name ts = some r → r ∈ ts ∧
          levenshteinDistance (asciiLowerStr name) (asciiLowerStr r) ≤ 2 ∧
          ∀ t ∈ ts, levenshteinDistance (asciiLowerStr name) (asciiLowerStr r)
            ≤ levenshteinDistance (asciiLowerStr name) (asciiLowerStr t))
        ∧ ((∀ t ∈ ts, 2 < levenshteinDistance (asciiLowerStr name) (asciiLowerStr t)) →
            findClosestTable name ts = none)
        ∧ checkTableNames (str "Zzzzzz | where x") (some [str "SecurityEvent"])
            = (str "Zzzzzz | where x", [tableNotFoundWarn (str "Zzzzzz")])) := by
  refine ⟨by decide, ?_, ?_, ?_⟩
  · intro h
    obtain ⟨t, ht, hte⟩ := h
    have hsome : (ts.find? (fun t => asciiLowerStr t == asciiLowerStr name)).isSome :=
      List.find?_isSome.mpr ⟨t, ht, by simpa using hte⟩
    obtain ⟨r, hr⟩ := Option.isSome_iff_exists.mp hsome
    refine ⟨r, ?_, List.mem_of_find?_eq_some hr, by simpa using List.find?_some hr⟩
    simp only [findClosestTable]
    rw [hr]
  · intro hne hsub
    have h1 : ts.find? (fun t => asciiLowerStr t == asciiLowerStr name) = none :=
      List.find?_eq_none.mpr (fun t ht => by simpa using hne t ht)
    obtain ⟨t, ht, hts⟩ := hsub
    have hsome : (ts.find? (fun t => pyIn (asciiLowerStr name) (asciiLowerStr t)
        || pyIn (asciiLowerStr t) (asciiLowerStr name))).isSome :=
      List.find?_isSome.mpr ⟨t, ht, hts⟩
    obtain ⟨r, hr⟩ := Option.isSome_iff_exists.mp hsome
    refine ⟨r, ?_, List.mem_of_find?_eq_some hr,
      by simpa using List.find?_some hr⟩
    simp only [findClosestTable]
    rw [h1, hr]
  · intro hne hnosub
    have h1 : ts.find? (fun t => asciiLowerStr t == asciiLowerStr name) = none :=
      List.find?_eq_none.mpr (fun t ht => by simpa using hne t ht)
    have h2 : ts.find? (fun t => pyIn (asciiLowerStr name) (asciiLowerStr t)
        || pyIn (asciiLowerStr t) (asciiLowerStr name)) = none :=
      List.find?_eq_none.mpr (fun t ht => by simp [hnosub t ht])
    have hfc : findClosestTable name ts
        = (levScan (asciiLowerStr name) ts none).map Prod.fst := by
      simp only [findClosestTable]
      rw [h1, h2]
    have hspec := levScan_spec (asciiLowerStr name) ts none
      (fun r d h => Option.noConfusion h)
    refine ⟨?_, ?_, by decide⟩
    · intro r hr
      rw [hfc] at hr
      obtain ⟨⟨r', d⟩, hsc, hre⟩ := Option.map_eq_some'.mp hr
      have hre' : r' = r := hre
      subst hre'
      obtain ⟨hde, hd2, hmem, hmin, _⟩ := hspec.2 r' d hsc
      rcases hmem with hm | hm
      · refine ⟨hm, by omega, fun t ht => ?_⟩
        have := hmin t ht
        omega
      · exact Option.noConfusion hm
    · intro hall
      rw [hfc]
      cases hsc : levScan (asciiLowerStr name) ts none with
      | none => rfl
      | some p =>
        obtain ⟨r', d⟩ := p
        obtain ⟨hde, hd2, hmem, hmin, _⟩ := hspec.2 r' d hsc
        rcases hmem with hm | hm
        · have := hall r' hm
          omega
        · exact Option.noConfusion hm

/-- C6 witness: the substring tier fires for `SecurityEven` against
[SecurityEvent] (no exact match, but a one-directional substring match),
and the matcher returns none for `Zzzzzz`, whose distance exceeds 2. -/
theorem C6_three_tier_witness :
    (∃ r, findClosestTable (str "SecurityEven") [str "SecurityEvent"] = some r
        ∧ r ∈ [str "SecurityEvent"]
        ∧ (pyIn (asciiLowerStr (str "SecurityEven")) (asciiLowerStr r)
            || pyIn (asciiLowerStr r) (asciiLowerStr (str "SecurityEven"))) = true)
    ∧ findClosestTable (str "Zzzzzz") [str "SecurityEvent"] = none :=
  ⟨(C6_three_tier_matcher (str "SecurityEven") [str "SecurityEvent"]).2.2.1
      (by decide) (by decide),
   ((C6_three_tier_matcher (str "Zzzzzz") [str "SecurityEvent"]).2.2.2
      (by decide) (by decide)).2.1 (by decide)⟩

/-
Parenthesis-count preservation.  Every correction stage of the validator
either copies characters, deletes characters that are not parentheses
(whitespace, backticks, fence tags, semicolons, pipes), or replaces a
matched span by text with the same number of each parenthesis.  The lemmas
below are stated for a character `c` that is one of the two parentheses.
-/

theorem count_dropWhile_of_neg (c : Char) (p : Char → Bool) (hc : p c = false) :
    ∀ s : Str, (s.dropWhile p).count c = s.count c := by
  intro s
  induction s with
  | nil => rfl
  | cons x t ih =>
    rw [List.dropWhile_cons]
    split
    · rename_i hx
      have hxc : ¬ (x == c) = true := by
        intro hxe
        rw [eq_of_beq hxe] at hx
        rw [hx] at hc
        cases hc
      rw [ih, List.count_cons]
      simp [hxc]
    · rfl

theorem count_pyStrip (c : Char) (hc : pySpace c = false) (s : Str) :
    (pyStrip s).count c = s.count c := by
  unfold pyStrip
  rw [List.count_reverse, count_dropWhile_of_neg c pySpace hc,
    List.count_reverse, count_dropWhile_of_neg c pySpace hc]

theorem count_takeWhile_zero (c : Char) (p : Char → Bool) (hc : p c = false)
    (s : Str) : (s.takeWhile p).count c = 0 := by
  rw [List.count_eq_zero]
  intro hmem
  rw [List.mem_takeWhile_imp hmem] at hc
  cases hc

theorem count_take_takeWhile_zero (c : Char) (p : Char → Bool)
    (hc : p c = false) (s : Str) (j : Nat) :
    ((s.takeWhile p).take j).count c = 0 :=
  Nat.le_zero.mp
    ((List.Sublist.count_le (List.take_sublist j _) c).trans_eq
      (count_takeWhile_zero c p hc s))

theorem splitNL_ne_nil (s : Str) : splitNL s ≠ [] := by
  induction s with
  | nil => simp [splitNL]
  | cons x t ih =>
    rw [splitNL]
    split
    · simp
    · cases h : splitNL t with
      | nil => exact absurd h ih
      | cons l ls => simp

theorem count_splitNL (c : Char) (hc : ¬ c = '\n') :
    ∀ s : Str, ((splitNL s).map (fun l => l.count c)).sum = s.count c := by
  intro s
  induction s with
  | nil => simp [splitNL]
  | cons x t ih =>
    rw [splitNL]
    split
    · rename_i hx
      subst hx
      rw [List.map_cons, List.sum_cons, List.count_cons]
      have : ¬ (('\n' : Char) == c) = true := by
        intro h
        exact hc (eq_of_beq h).symm
      simp [this, ih]
    · rename_i hx
      cases h : splitNL t with
      | nil => exact absurd h (splitNL_ne_nil t)
      | cons l ls =>
        rw [h] at ih
        simp only [List.map_cons, List.sum_cons, List.count_cons] at ih ⊢
        omega

theorem count_joinNL (c : Char) (hc : ¬ c = '\n') :
    ∀ ls : List Str, (joinNL ls).count c = (ls.map (fun l => l.count c)).sum := by
  intro ls
  induction ls with
  | nil => rfl
  | cons l ls ih =>
    cases ls with
    | nil => simp [joinNL]
    | cons l2 ls2 =>
      have hj : joinNL (l :: l2 :: ls2) = l ++ '\n' :: joinNL (l2 :: ls2) := by
        rw [joinNL]
        simp
      rw [hj, List.count_append, List.count_cons, ih]
      have hne : ¬ (('\n' : Char) == c) = true := fun h => hc (eq_of_beq h).symm
      rw [if_neg hne]
      simp only [List.map_cons, List.sum_cons]
      omega

theorem count_zero_of_strip_nil (c : Char) (hc : pySpace c = false) (s : Str)
    (h : pyStrip s = []) : s.count c = 0 := by
  have := count_pyStrip c hc s
  rw [h] at this
  simpa using this.symm

/-- Only a parenthesis lower-cases to that parenthesis: `asciiLower` maps
every character either to a lowercase letter or to itself. -/
theorem asciiLower_eq_lparen (x : Char) (h : asciiLower x = '(') : x = '(' := by
  delta asciiLower at h
  by_cases h1 : x = 'A'
  · rw [if_pos h1] at h
    exact absurd h (by decide)
  rw [if_neg h1] at h
  by_cases h2 : x = 'B'
  · rw [if_pos h2] at h
    exact absurd h (by decide)
  rw [if_neg h2] at h
  by_cases h3 : x = 'C'
  · rw [if_pos h3] at h
    exact absurd h (by decide)
  rw [if_neg h3] at h
  by_cases h4 : x = 'D'
  · rw [if_pos h4] at h
    exact absurd h (by decide)
  rw [if_neg h4] at h
  by_cases h5 : x = 'E'
  · rw [if_pos h5] at h
    exact absurd h (by decide)
  rw [if_neg h5] at h
  by_cases h6 : x = 'F'
  · rw [if_pos h6] at h
    exact absurd h (by decide)
  rw [if_neg h6] at h
  by_cases h7 : x = 'G'
  · rw [if_pos h7] at h
    exact absurd h (by decide)
  rw [if_neg h7] at h
  by_cases h8 : x = 'H'
  · rw [if_pos h8] at h
    exact absurd h (by decide)
  rw [if_neg h8] at h
  by_cases h9 : x = 'I'
  · rw [if_pos h9] at h
    exact absurd h (by decide)
  rw [if_neg h9] at h
  by_cases h10 : x = 'J'
  · rw [if_pos h10] at h
    exact absurd h (by decide)
  rw [if_neg h10] at h
  by_cases h11 : x = 'K'
  · rw [if_pos h11] at h
    exact absurd h (by decide)
  rw [if_neg h11] at h
  by_cases h12 : x = 'L'
  · rw [if_pos h12] at h
    exact absurd h (by decide)
  rw [if_neg h12] at h
  by_cases h13 : x = 'M'
  · rw [if_pos h13] at h
    exact absurd h (by decide)
  rw [if_neg h13] at h
  by_cases h14 : x = 'N'
  · rw [if_pos h14] at h
    exact absurd h (by decide)
  rw [if_neg h14] at h
  by_cases h15 : x = 'O'
  · rw [if_pos h15] at h
    exact absurd h (by decide)
  rw [if_neg h15] at h
  by_cases h16 : x = 'P'
  · rw [if_pos h16] at h
    exact absurd h (by decide)
  rw [if_neg h16] at h
  by_cases h17 : x = 'Q'
  · rw [if_pos h17] at h
    exact absurd h (by decide)
  rw [if_neg h17] at h
  by_cases h18 : x = 'R'
  · rw [if_pos h18] at h
    exact absurd h (by decide)
  rw [if_neg h18] at h
  by_cases h19 : x = 'S'
  · rw [if_pos h19] at h
    exact absurd h (by decide)
  rw [if_neg h19] at h
  by_cases h20 : x = 'T'
  · rw [if_pos h20] at h
    exact absurd h (by decide)
  rw [if_neg h20] at h
  by_cases h21 : x = 'U'
  · rw [if_pos h21] at h
    exact absurd h (by decide)
  rw [if_neg h21] at h
  by_cases h22 : x = 'V'
  · rw [if_pos h22] at h
    exact absurd h (by decide)
  rw [if_neg h22] at h
  by_cases h23 : x = 'W'
  · rw [if_pos h23] at h
    exact absurd h (by decide)
  rw [if_neg h23] at h
  by_cases h24 : x = 'X'
  · rw [if_pos h24] at h
    exact absurd h (by decide)
  rw [if_neg h24] at h
  by_cases h25 : x = 'Y'
  · rw [if_pos h25] at h
    exact absurd h (by decide)
  rw [if_neg h25] at h
  by_cases h26 : x = 'Z'
  · rw [if_pos h26] at h
    exact absurd h (by decide)
  rw [if_neg h26] at h
  exact h

theorem asciiLower_eq_rparen (x : Char) (h : asciiLower x = ')') : x = ')' := by
  delta asciiLower at h
  by_cases h1 : x = 'A'
  · rw [if_pos h1] at h
    exact absurd h (by decide)
  rw [if_neg h1] at h
  by_cases h2 : x = 'B'
  · rw [if_pos h2] at h
    exact absurd h (by decide)
  rw [if_neg h2] at h
  by_cases h3 : x = 'C'
  · rw [if_pos h3] at h
    exact absurd h (by decide)
  rw [if_neg h3] at h
  by_cases h4 : x = 'D'
  · rw [if_pos h4] at h
    exact absurd h (by decide)
  rw [if_neg h4] at h
  by_cases h5 : x = 'E'
  · rw [if_pos h5] at h
    exact absurd h (by decide)
  rw [if_neg h5] at h
  by_cases h6 : x = 'F'
  · rw [if_pos h6] at h
    exact absurd h (by decide)
  rw [if_neg h6] at h
  by_cases h7 : x = 'G'
  · rw [if_pos h7] at h
    exact absurd h (by decide)
  rw [if_neg h7] at h
  by_cases h8 : x = 'H'
  · rw [if_pos h8] at h
    exact absurd h (by decide)
  rw [if_neg h8] at h
  by_cases h9 : x = 'I'
  · rw [if_pos h9] at h
    exact absurd h (by decide)
  rw [if_neg h9] at h
  by_cases h10 : x = 'J'
  · rw [if_pos h10] at h
    exact absurd h (by decide)
  rw [if_neg h10] at h
  by_cases h11 : x = 'K'
  · rw [if_pos h11] at h
    exact absurd h (by decide)
  rw [if_neg h11] at h
  by_cases h12 : x = 'L'
  · rw [if_pos h12] at h
    exact absurd h (by decide)
  rw [if_neg h12] at h
  by_cases h13 : x = 'M'
  · rw [if_pos h13] at h
    exact absurd h (by decide)
  rw [if_neg h13] at h
  by_cases h14 : x = 'N'
  · rw [if_pos h14] at h
    exact absurd h (by decide)
  rw [if_neg h14] at h
  by_cases h15 : x = 'O'
  · rw [if_pos h15] at h
    exact absurd h (by decide)
  rw [if_neg h15] at h
  by_cases h16 : x = 'P'
  · rw [if_pos h16] at h
    exact absurd h (by decide)
  rw [if_neg h16] at h
  by_cases h17 : x = 'Q'
  · rw [if_pos h17] at h
    exact absurd h (by decide)
  rw [if_neg h17] at h
  by_cases h18 : x = 'R'
  · rw [if_pos h18] at h
    exact absurd h (by decide)
  rw [if_neg h18] at h
  by_cases h19 : x = 'S'
  · rw [if_pos h19] at h
    exact absurd h (by decide)
  rw [if_neg h19] at h
  by_cases h20 : x = 'T'
  · rw [if_pos h20] at h
    exact absurd h (by decide)
  rw [if_neg h20] at h
  by_cases h21 : x = 'U'
  · rw [if_pos h21] at h
    exact absurd h (by decide)
  rw [if_neg h21] at h
  by_cases h22 : x = 'V'
  · rw [if_pos h22] at h
    exact absurd h (by decide)
  rw [if_neg h22] at h
  by_cases h23 : x = 'W'
  · rw [if_pos h23] at h
    exact absurd h (by decide)
  rw [if_neg h23] at h
  by_cases h24 : x = 'X'
  · rw [if_pos h24] at h
    exact absurd h (by decide)
  rw [if_neg h24] at h
  by_cases h25 : x = 'Y'
  · rw [if_pos h25] at h
    exact absurd h (by decide)
  rw [if_neg h25] at h
  by_cases h26 : x = 'Z'
  · rw [if_pos h26] at h
    exact absurd h (by decide)
  rw [if_neg h26] at h
  exact h

/-- A parenthesis cannot occur in a string whose lower-casing avoids it. -/
theorem count_zero_of_lower_eq (c : Char) (hfix : asciiLower c = c)
    (xs L : Str) (hxs : asciiLowerStr xs = L) (hL : c ∉ L) : xs.count c = 0 := by
  rw [List.count_eq_zero]
  intro hmem
  exact hL (hxs ▸ (hfix ▸ List.mem_map_of_mem asciiLower hmem))

/-- Counts of a parenthesis agree between two strings with the same
lower-casing. -/
theorem count_eq_of_lower_eq (c : Char) (hfix : asciiLower c = c)
    (hinj : ∀ x, asciiLower x = c → x = c) :
    ∀ xs ys : Str, asciiLowerStr xs = asciiLowerStr ys →
      xs.count c = ys.count c := by
  intro xs
  induction xs with
  | nil =>
    intro ys h
    have : ys = [] := by
      cases ys with
      | nil => rfl
      | cons y t => cases h
    rw [this]
  | cons x t ih =>
    intro ys h
    cases ys with
    | nil => cases h
    | cons y u =>
      simp only [asciiLowerStr, List.map_cons, List.cons.injEq] at h
      have hxy : (x == c) = (y == c) := by
        by_cases hx : x = c
        · have hyl : asciiLower y = c := by rw [← h.1, hx, hfix]
          rw [hx, hinj y hyl]
        · by_cases hy : y = c
          · have hxl : asciiLower x = c := by rw [h.1, hy, hfix]
            exact absurd (hinj x hxl) hx
          · simp [hx, hy]
      rw [List.count_cons, List.count_cons, ih u h.2, hxy]

/-- Helper: taking `span.length - 1 + 1` characters of `span ++ rest` gives
back `span` whenever the span is non-empty (the matchers store consumed
lengths off by one). -/
theorem take_pred_succ_append (span rest : Str) (h : span ≠ []) :
    (span ++ rest).take (span.length - 1 + 1) = span := by
  have hl : span.length - 1 + 1 = span.length := by
    cases span with
    | nil => exact absurd rfl h
    | cons a t => simp
  rw [hl, List.take_left]

/-- A scan substitution preserves the count of `c` as soon as every matched
span has the same count as its replacement. -/
theorem count_subScanF (c : Char) (m : Str → Option (Nat × Str))
    (H : ∀ s k r, m s = some (k, r) → ((s.take (k + 1)).count c = r.count c)) :
    ∀ (fuel : Nat) (s : Str), s.length ≤ fuel →
      (subScanF m fuel s).count c = s.count c := by
  intro fuel
  induction fuel with
  | zero =>
    intro s hs
    obtain rfl : s = [] := List.length_eq_zero.mp (Nat.le_zero.mp hs)
    rfl
  | succ fuel ih =>
    intro s hs
    match s with
    | [] => rfl
    | ch :: t =>
      rw [subScanF]
      cases hm : m (ch :: t) with
      | none =>
        rw [List.count_cons, List.count_cons,
          ih t (by simpa using Nat.le_of_succ_le_succ hs)]
      | some kr =>
        obtain ⟨k, r⟩ := kr
        rw [List.count_append,
          ih _ (by
            simp only [List.length_drop]
            simp only [List.length_cons] at hs
            omega)]
        have hH := H (ch :: t) k r hm
        have hsplit : (ch :: t).count c
            = ((ch :: t).take (k + 1)).count c + (t.drop k).count c := by
          conv_lhs => rw [← List.take_append_drop (k + 1) (ch :: t)]
          rw [List.count_append]
          rfl
        omega

theorem count_subScan (c : Char) (m : Str → Option (Nat × Str))
    (H : ∀ s k r, m s = some (k, r) → ((s.take (k + 1)).count c = r.count c))
    (s : Str) : (subScan m s).count c = s.count c :=
  count_subScanF c m H s.length s (le_refl _)

theorem count_subScanBOLF (c : Char) (m : Str → Option (Nat × Str))
    (H : ∀ s k r, m s = some (k, r) → ((s.take (k + 1)).count c = r.count c)) :
    ∀ (fuel : Nat) (fl : Bool) (s : Str), s.length ≤ fuel →
      (subScanBOLF m fuel fl s).count c = s.count c := by
  intro fuel
  induction fuel with
  | zero =>
    intro fl s hs
    obtain rfl : s = [] := List.length_eq_zero.mp (Nat.le_zero.mp hs)
    rfl
  | succ fuel ih =>
    intro fl s hs
    match s with
    | [] => rfl
    | ch :: t =>
      rw [subScanBOLF]
      cases hm : (if fl then m (ch :: t) else none) with
      | none =>
        rw [List.count_cons, List.count_cons,
          ih _ t (by simpa using Nat.le_of_succ_le_succ hs)]
      | some kr =>
        obtain ⟨k, r⟩ := kr
        have hm' : m (ch :: t) = some (k, r) := by
          cases fl with
          | false => cases hm
          | true => simpa using hm
        rw [List.count_append,
          ih _ _ (by
            simp only [List.length_drop]
            simp only [List.length_cons] at hs
            omega)]
        have hH := H (ch :: t) k r hm'
        have hsplit : (ch :: t).count c
            = ((ch :: t).take (k + 1)).count c + (t.drop k).count c := by
          conv_lhs => rw [← List.take_append_drop (k + 1) (ch :: t)]
          rw [List.count_append]
          rfl
        omega

theorem count_subScanBOL (c : Char) (m : Str → Option (Nat × Str))
    (H : ∀ s k r, m s = some (k, r) → ((s.take (k + 1)).count c = r.count c))
    (fl : Bool) (s : Str) : (subScanBOL m fl s).count c = s.count c :=
  count_subScanBOLF c m H s.length fl s (le_refl _)

theorem count_take_span (c : Char) (s span rest : Str) (hs : s = span ++ rest)
    (hne : span ≠ []) : (s.take (span.length - 1 + 1)).count c = span.count c := by
  rw [hs, take_pred_succ_append span rest hne]

theorem fo_sub (c : Char) (hsp : pySpace c = false) (hb : c ≠ btick)
    (kw : Str) (hkc : kw.count c = 0) (s : Str)
    (h3 : s.take 3 = [btick, btick, btick])
    (hpre : (s.drop 3).take kw.length = kw) :
    (s.take ((([btick, btick, btick] ++ kw) ++
        ((s.drop 3).drop kw.length).takeWhile pySpace).length - 1 + 1)).count c
      = 0 := by
  have e1 : (s.drop 3).drop kw.length
      = ((s.drop 3).drop kw.length).takeWhile pySpace ++
        ((s.drop 3).drop kw.length).dropWhile pySpace :=
    (List.takeWhile_append_dropWhile pySpace ((s.drop 3).drop kw.length)).symm
  have e2 : s.drop 3 = kw ++ (s.drop 3).drop kw.length := by
    conv_lhs => rw [← List.take_append_drop kw.length (s.drop 3)]
    rw [hpre]
  have hS : s = (([btick, btick, btick] ++ kw) ++
      ((s.drop 3).drop kw.length).takeWhile pySpace) ++
      ((s.drop 3).drop kw.length).dropWhile pySpace := by
    conv_lhs => rw [← List.take_append_drop 3 s]
    rw [h3]
    conv_lhs => rw [e2, e1]
    simp [List.append_assoc]
  rw [count_take_span c s _ _ hS (by simp)]
  simp [List.count_append, hkc, count_takeWhile_zero c pySpace hsp,
    List.count_cons, hb]

theorem fenceOpen_H (c : Char) (hsp : pySpace c = false) (hb : c ≠ btick)
    (hk1 : c ∉ str "kusto") (hk2 : c ∉ str "kql") :
    ∀ s k r, fenceOpenMatch s = some (k, r) →
      (s.take (k + 1)).count c = r.count c := by
  intro s k r hm
  simp only [fenceOpenMatch] at hm
  split at hm
  case isFalse => exact Option.noConfusion hm
  case isTrue h3 =>
    simp only [Option.some.injEq, Prod.mk.injEq] at hm
    obtain ⟨hk, hr⟩ := hm
    subst hk
    subst hr
    by_cases h5 : (str "kusto").isPrefixOf (s.drop 3) = true
    · simp only [if_pos h5]
      have hpre : (s.drop 3).take (str "kusto").length = str "kusto" :=
        (List.prefix_iff_eq_take.mp (List.isPrefixOf_iff_prefix.mp h5)).symm
      simpa using fo_sub c hsp hb (str "kusto")
        (List.count_eq_zero.mpr hk1) s h3 hpre
    · simp only [if_neg h5]
      by_cases h6 : (str "kql").isPrefixOf (s.drop 3) = true
      · simp only [if_pos h6]
        have hpre : (s.drop 3).take (str "kql").length = str "kql" :=
          (List.prefix_iff_eq_take.mp (List.isPrefixOf_iff_prefix.mp h6)).symm
        simpa using fo_sub c hsp hb (str "kql")
          (List.count_eq_zero.mpr hk2) s h3 hpre
      · simp only [if_neg h6]
        have hpre : (s.drop 3).take ([] : Str).length = ([] : Str) := by simp
        simpa using fo_sub c hsp hb [] (by simp) s h3 hpre

theorem fc_sub (c : Char) (hsp : pySpace c = false) (hb : c ≠ btick)
    (pre : Str) (hprec : pre.count c = 0) (s : Str)
    (hpre : s.take pre.length = pre) (k : Nat) (r : Str)
    (hm : (if List.take 3 (List.drop pre.length s) = [btick, btick, btick] then
        if (List.drop 3 (List.drop pre.length s)).length =
            (List.takeWhile pySpace (List.drop 3 (List.drop pre.length s))).length then
          some ((pre ++ [btick, btick, btick] ++
            List.takeWhile pySpace (List.drop 3 (List.drop pre.length s))).length - 1,
            ([] : Str))
        else
          match lastIdxOf ('\n') (List.takeWhile pySpace
              (List.drop 3 (List.drop pre.length s))) with
          | some j => some ((pre ++ [btick, btick, btick] ++
              List.take j (List.takeWhile pySpace
                (List.drop 3 (List.drop pre.length s)))).length - 1, ([] : Str))
          | none => none
      else none) = some (k, r)) :
    (s.take (k + 1)).count c = r.count c := by
  have e0 : s = pre ++ s.drop pre.length := by
    conv_lhs => rw [← List.take_append_drop pre.length s]
    rw [hpre]
  split at hm
  case isTrue h3 =>
    have e1 : s.drop pre.length
        = [btick, btick, btick] ++ (s.drop pre.length).drop 3 := by
      conv_lhs => rw [← List.take_append_drop 3 (s.drop pre.length)]
      rw [h3]
    split at hm
    case isTrue hlen =>
      simp only [Option.some.injEq, Prod.mk.injEq] at hm
      obtain ⟨hk, hr⟩ := hm
      subst hk
      subst hr
      have hwr : ((s.drop pre.length).drop 3).takeWhile pySpace
          = (s.drop pre.length).drop 3 :=
        List.IsPrefix.eq_of_length (List.takeWhile_prefix pySpace) hlen.symm
      have hS : s = ((pre ++ [btick, btick, btick]) ++
          ((s.drop pre.length).drop 3).takeWhile pySpace) ++ [] := by
        rw [List.append_nil]
        conv_lhs => rw [e0, e1, ← hwr]
        simp only [List.append_assoc]
      rw [count_take_span c s _ _ hS (by simp)]
      simp [List.count_append, hprec, count_takeWhile_zero c pySpace hsp,
        List.count_cons, hb]
    case isFalse hlen =>
      split at hm
      case h_1 j heqj =>
        simp only [Option.some.injEq, Prod.mk.injEq] at hm
        obtain ⟨hk, hr⟩ := hm
        subst hk
        subst hr
        have e2 : (s.drop pre.length).drop 3
            = ((s.drop pre.length).drop 3).takeWhile pySpace ++
              ((s.drop pre.length).drop 3).dropWhile pySpace :=
          (List.takeWhile_append_dropWhile pySpace ((s.drop pre.length).drop 3)).symm
        have e3 : ((s.drop pre.length).drop 3).takeWhile pySpace
            = (((s.drop pre.length).drop 3).takeWhile pySpace).take j ++
              (((s.drop pre.length).drop 3).takeWhile pySpace).drop j :=
          (List.take_append_drop j (((s.drop pre.length).drop 3).takeWhile pySpace)).symm
        have hS : s = ((pre ++ [btick, btick, btick]) ++
            (((s.drop pre.length).drop 3).takeWhile pySpace).take j) ++
            ((((s.drop pre.length).drop 3).takeWhile pySpace).drop j ++
              ((s.drop pre.length).drop 3).dropWhile pySpace) := by
          conv_lhs => rw [e0, e1, e2, e3]
          simp only [List.append_assoc]
        rw [count_take_span c s _ _ hS (by simp)]
        simp [List.count_append, hprec,
          count_take_takeWhile_zero c pySpace hsp, List.count_cons, hb]
      case h_2 => exact Option.noConfusion hm
  case isFalse h3 => exact Option.noConfusion hm

theorem fenceClose_H (c : Char) (hsp : pySpace c = false) (hb : c ≠ btick)
    (hnl : c ≠ '\n') :
    ∀ s k r, fenceCloseMatch s = some (k, r) →
      (s.take (k + 1)).count c = r.count c := by
  intro s k r hm
  simp only [fenceCloseMatch] at hm
  by_cases hp : s.take 1 = ['\n']
  · simp only [if_pos hp] at hm
    exact fc_sub c hsp hb ['\n'] (by simp [hnl]) s (by simpa using hp)
      k r hm
  · simp only [if_neg hp] at hm
    exact fc_sub c hsp hb [] (by simp) s (by simp) k r hm

theorem count_dropLast_of_getLast (c x : Char) (hxc : c ≠ x) (s : Str)
    (h : s.getLast? = some x) : s.dropLast.count c = s.count c := by
  cases s with
  | nil => cases h
  | cons a t =>
    have hne : (a :: t) ≠ [] := by simp
    have hgl : (a :: t).getLast hne = x := by
      have h2 := List.getLast?_eq_getLast (a :: t) hne
      rw [h] at h2
      exact (Option.some_inj.mp h2).symm
    have e : (a :: t).dropLast ++ [(a :: t).getLast hne] = a :: t :=
      List.dropLast_append_getLast hne
    conv_rhs => rw [← e]
    simp [List.count_append, List.count_cons, hgl, hxc]

theorem count_stripInlineBticks (c : Char) (hb : c ≠ btick) (s : Str) :
    (stripInlineBticks s).count c = s.count c := by
  unfold stripInlineBticks
  split
  case isTrue h =>
    obtain ⟨h1, h2, h3, h4⟩ := h
    cases s with
    | nil => cases h1
    | cons a t =>
      have ha : a = btick := by simpa using h1
      subst ha
      have hgl : t.getLast? = some btick := by
        cases t with
        | nil => simp at h3
        | cons b u => rw [← List.getLast?_cons_cons]; exact h2
      have hd : (btick :: t).drop 1 = t := rfl
      rw [hd, count_dropLast_of_getLast c btick hb t hgl, List.count_cons]
      have hbc : ¬ btick = c := fun h => hb h.symm
      simp [hbc]
  case isFalse h => rfl

theorem count_removeMarkdown (c : Char) (hc : c = '(' ∨ c = ')') (q : Str) :
    (removeMarkdown q).count c = q.count c := by
  have hsp : pySpace c = false := by rcases hc with rfl | rfl <;> decide
  have hb : c ≠ btick := by rcases hc with rfl | rfl <;> decide
  have hnl : c ≠ '\n' := by rcases hc with rfl | rfl <;> decide
  have hk1 : c ∉ str "kusto" := by rcases hc with rfl | rfl <;> decide
  have hk2 : c ∉ str "kql" := by rcases hc with rfl | rfl <;> decide
  simp only [removeMarkdown]
  rw [count_pyStrip c hsp, count_stripInlineBticks c hb,
    count_pyStrip c hsp,
    count_subScan c fenceCloseMatch (fenceClose_H c hsp hb hnl),
    count_subScanBOL c fenceOpenMatch (fenceOpen_H c hsp hb hk1 hk2)]

theorem map_snd_enumFrom (f : Str → Nat) :
    ∀ (n : Nat) (L : List Str),
      (List.enumFrom n L).map (fun p => f p.2) = L.map f
  | _, [] => rfl
  | n, a :: t => by
    simp [List.enumFrom, map_snd_enumFrom f (n + 1) t]

theorem count_checkBasicSyntaxStep (c : Char) (hc : c = '(' ∨ c = ')')
    (acc : List Str × List Str) (il : Nat × Str) :
    (((checkBasicSyntaxStep acc il).1).map (fun l => l.count c)).sum
      = (acc.1.map (fun l => l.count c)).sum + (il.2).count c := by
  have hsp : pySpace c = false := by rcases hc with rfl | rfl <;> decide
  have hpipe : ¬ (c == '|') = true := by
    rcases hc with rfl | rfl <;> decide
  have hspc : ¬ (c == ' ') = true := by
    rcases hc with rfl | rfl <;> decide
  have hpipe2 : ¬ (('|' : Char) = c) := by
    rcases hc with rfl | rfl <;> decide
  have hspc2 : ¬ ((' ' : Char) = c) := by
    rcases hc with rfl | rfl <;> decide
  obtain ⟨ls, ws⟩ := acc
  obtain ⟨i, l0⟩ := il
  simp only [checkBasicSyntaxStep]
  split
  case isTrue h =>
    simp [count_zero_of_strip_nil c hsp l0 h]
  case isFalse h1 =>
    split
    case isTrue h2 =>
      have e : pyStrip l0 = '|' :: (pyStrip l0).drop 1 := by
        conv_lhs => rw [← List.take_append_drop 1 (pyStrip l0)]
        rw [h2.2]
        rfl
      have e2 : l0.count c = ((pyStrip l0).drop 1).count c := by
        rw [← count_pyStrip c hsp l0]
        conv_lhs => rw [e]
        simp [List.count_cons, hpipe, hpipe2]
      simp [List.map_append, List.sum_append, count_pyStrip c hsp,
        ← List.drop_one, ← e2]
    case isFalse h2 =>
      split
      case isTrue h3 =>
        simp [List.map_append, List.sum_append, List.count_cons, hpipe, hspc,
          hpipe2, hspc2, count_pyStrip c hsp]
      case isFalse h3 =>
        simp [List.map_append, List.sum_append, count_pyStrip c hsp]

theorem count_checkBasicSyntaxFold (c : Char) (hc : c = '(' ∨ c = ')') :
    ∀ (il : List (Nat × Str)) (acc : List Str × List Str),
      (((il.foldl checkBasicSyntaxStep acc).1).map (fun l => l.count c)).sum
        = (acc.1.map (fun l => l.count c)).sum
          + (il.map (fun p => (p.2).count c)).sum := by
  intro il
  induction il with
  | nil => simp
  | cons p il ih =>
    intro acc
    rw [List.foldl_cons, ih, count_checkBasicSyntaxStep c hc]
    simp
    omega

theorem count_checkBasicSyntax (c : Char) (hc : c = '(' ∨ c = ')') (q : Str) :
    (checkBasicSyntax q).1.count c = q.count c := by
  have hnl : ¬ c = '\n' := by rcases hc with rfl | rfl <;> decide
  have hsemic : c ≠ ';' := by rcases hc with rfl | rfl <;> decide
  simp only [checkBasicSyntax]
  by_cases hsemi : q.getLast? = some (';')
  · simp only [if_pos hsemi]
    rw [count_joinNL c hnl, count_checkBasicSyntaxFold c hc, List.enum,
      map_snd_enumFrom (fun l => l.count c) 0, count_splitNL c hnl,
      count_dropLast_of_getLast c (';') hsemic q hsemi]
    simp
  · simp only [if_neg hsemi]
    rw [count_joinNL c hnl, count_checkBasicSyntaxFold c hc, List.enum,
      map_snd_enumFrom (fun l => l.count c) 0, count_splitNL c hnl]
    simp

theorem count_foldl_fst {α : Type} (c : Char)
    (f : Str × List Str → α → Str × List Str) :
    ∀ (ms : List α),
      (∀ cw m, m ∈ ms → ((f cw m).1).count c = cw.1.count c) →
      ∀ cw, ((ms.foldl f cw).1).count c = cw.1.count c := by
  intro ms
  induction ms with
  | nil => intro _ cw; rfl
  | cons m ms ih =>
    intro h cw
    rw [List.foldl_cons,
      ih (fun cw2 m2 hm2 => h cw2 m2 (List.mem_cons_of_mem m hm2)) (f cw m),
      h cw m (List.mem_cons_self m ms)]

theorem findClosestTable_mem (name : Str) (ts : List Str) (cm : Str)
    (h : findClosestTable name ts = some cm) : cm ∈ ts := by
  simp only [findClosestTable] at h
  cases h1 : ts.find? (fun t => asciiLowerStr t == asciiLowerStr name) with
  | some t =>
    rw [h1] at h
    simp only [Option.some.injEq] at h
    exact h ▸ List.mem_of_find?_eq_some h1
  | none =>
    rw [h1] at h
    cases h2 : ts.find? (fun t =>
        pyIn (asciiLowerStr name) (asciiLowerStr t) ||
        pyIn (asciiLowerStr t) (asciiLowerStr name)) with
    | some t =>
      rw [h2] at h
      simp only [Option.some.injEq] at h
      exact h ▸ List.mem_of_find?_eq_some h2
    | none =>
      rw [h2] at h
      rw [Option.map_eq_some'] at h
      obtain ⟨⟨r, d⟩, hsc, hr⟩ := h
      have hspec := (levScan_spec (asciiLowerStr name) ts none
        (fun r d hrd => Option.noConfusion hrd)).2 r d hsc
      rcases hspec.2.2.1 with hmem | habs
      · exact hr ▸ hmem
      · exact Option.noConfusion habs

theorem count_pyReplaceFirst (c : Char) (pat rep : Str)
    (h : pat.count c = rep.count c) :
    ∀ s : Str, (pyReplaceFirst pat rep s).count c = s.count c := by
  intro s
  induction s with
  | nil =>
    simp only [pyReplaceFirst]
    split
    case isTrue hp =>
      have hpe : pat = [] :=
        List.prefix_nil.mp (List.isPrefixOf_iff_prefix.mp hp)
      rw [hpe] at h
      exact h.symm
    case isFalse hp => rfl
  | cons x t ih =>
    simp only [pyReplaceFirst]
    split
    case isTrue hp =>
      have hq : pat = (x :: t).take pat.length :=
        List.prefix_iff_eq_take.mp (List.isPrefixOf_iff_prefix.mp hp)
      have e : x :: t = pat ++ (x :: t).drop pat.length := by
        conv_lhs => rw [← List.take_append_drop pat.length (x :: t)]
        rw [← hq]
      conv_rhs => rw [e]
      rw [List.count_append, List.count_append, h]
    case isFalse hp =>
      rw [List.count_cons, List.count_cons, ih]

theorem parseTableName_count (c : Char) (hid : isIdentChar c = false)
    (l : Str) (name : Str) (h : parseTableName l = some name) :
    name.count c = 0 := by
  simp only [parseTableName] at h
  split at h
  · exact Option.noConfusion h
  · split at h
    · split at h
      · simp only [Option.some.injEq] at h
        rw [← h]
        exact count_takeWhile_zero c isIdentChar hid _
      · exact Option.noConfusion h
    · exact Option.noConfusion h

theorem count_checkTableNamesStep (c : Char) (hc : c = '(' ∨ c = ')')
    (tables : Option (List Str))
    (htab : ∀ ts, tables = some ts → ∀ t ∈ ts, t.count c = 0)
    (acc : Str × List Str) (l0 : Str) :
    ((checkTableNamesStep tables acc l0).1).count c = acc.1.count c := by
  have hid : isIdentChar c = false := by rcases hc with rfl | rfl <;> decide
  have hcommon : ∀ t ∈ commonTables, t.count c = 0 := by
    rcases hc with rfl | rfl <;> decide
  obtain ⟨cor, ws⟩ := acc
  simp only [checkTableNamesStep]
  split
  · rfl
  · split
    · rfl
    · rename_i name hp
      split
      · rename_i t0 trest
        split
        · rfl
        · split
          · rename_i cm hfc
            have hname : name.count c = 0 := parseTableName_count c hid _ name hp
            have hcm : cm.count c = 0 :=
              htab _ rfl cm (findClosestTable_mem name (t0 :: trest) cm hfc)
            exact count_pyReplaceFirst c name cm (by rw [hname, hcm]) cor
          · rfl
      · split
        · rfl
        · split
          · rename_i cm hfc
            have hname : name.count c = 0 := parseTableName_count c hid _ name hp
            have hcm : cm.count c = 0 :=
              hcommon cm (findClosestTable_mem name commonTables cm hfc)
            exact count_pyReplaceFirst c name cm (by rw [hname, hcm]) cor
          · rfl

theorem count_checkTableNames (c : Char) (hc : c = '(' ∨ c = ')')
    (tables : Option (List Str))
    (htab : ∀ ts, tables = some ts → ∀ t ∈ ts, t.count c = 0)
    (q : Str) : ((checkTableNames q tables).1).count c = q.count c := by
  simp only [checkTableNames]
  exact count_foldl_fst c (checkTableNamesStep tables) (splitNL q)
    (fun cw m _ => count_checkTableNamesStep c hc tables htab cw m) (q, [])

theorem agoSfx_count (c : Char) (hfix : asciiLower c = c)
    (hcs : ¬ c = 's') : ∀ r7 : Str, (agoSfx r7).count c = 0 := by
  intro r7
  cases r7 with
  | nil => rfl
  | cons x t =>
    simp only [agoSfx]
    split
    case isTrue hx =>
      rw [List.count_eq_zero]
      intro hmem
      obtain rfl := List.mem_singleton.mp hmem
      rw [hfix] at hx
      exact hcs hx
    case isFalse hx => rfl

theorem agoSfx_prefix : ∀ r7 : Str,
    r7 = agoSfx r7 ++ r7.drop (agoSfx r7).length := by
  intro r7
  cases r7 with
  | nil => rfl
  | cons x t =>
    simp only [agoSfx]
    split
    case isTrue hx => simp
    case isFalse hx => simp

theorem ago_H (c : Char) (hc : c = '(' ∨ c = ')')
    (u : Option Str) (unit : Char)
    (hu : (u = none ∧ unit = 'd') ∨
          (u = some (str "day") ∧ unit = 'd') ∨
          (u = some (str "hour") ∧ unit = 'h') ∨
          (u = some (str "minute") ∧ unit = 'm')) :
    ∀ s k r, agoMatch u unit s = some (k, r) →
      (s.take (k + 1)).count c = r.count c := by
  have hsp : pySpace c = false := by rcases hc with rfl | rfl <;> decide
  have hdig : Char.isDigit c = false := by rcases hc with rfl | rfl <;> decide
  have hfix : asciiLower c = c := by rcases hc with rfl | rfl <;> decide
  have hago : c ∉ str "ago" := by rcases hc with rfl | rfl <;> decide
  have hunit : ¬ c = unit := by
    rcases hu with ⟨_, h2⟩ | ⟨_, h2⟩ | ⟨_, h2⟩ | ⟨_, h2⟩ <;> subst h2 <;>
      rcases hc with rfl | rfl <;> decide
  have huwc : ∀ uw, u = some uw → c ∉ uw := by
    intro uw h
    rcases hu with ⟨h1, _⟩ | ⟨h1, _⟩ | ⟨h1, _⟩ | ⟨h1, _⟩ <;> rw [h1] at h
    · exact Option.noConfusion h
    · obtain rfl := Option.some_inj.mp h
      rcases hc with rfl | rfl <;> decide
    · obtain rfl := Option.some_inj.mp h
      rcases hc with rfl | rfl <;> decide
    · obtain rfl := Option.some_inj.mp h
      rcases hc with rfl | rfl <;> decide
  intro s k r hm
  simp only [agoMatch] at hm
  split at hm
  case isFalse => exact Option.noConfusion hm
  case isTrue hA =>
    have hc3 : (s.take 3).count c = 0 :=
      count_zero_of_lower_eq c hfix _ _ hA hago
    split at hm
    case h_2 => exact Option.noConfusion hm
    case h_1 r3 heq3 =>
      have e1 : s = s.take 3 ++ s.drop 3 := (List.take_append_drop 3 s).symm
      have e2 : s.drop 3 = (s.drop 3).takeWhile pySpace ++ ('(' :: r3) := by
        rw [← heq3, List.takeWhile_append_dropWhile]
      have e3 : r3 = r3.takeWhile pySpace ++ r3.dropWhile pySpace :=
        (List.takeWhile_append_dropWhile pySpace r3).symm
      have e4 : r3.dropWhile pySpace
          = (r3.dropWhile pySpace).takeWhile Char.isDigit ++
            (r3.dropWhile pySpace).dropWhile Char.isDigit :=
        (List.takeWhile_append_dropWhile Char.isDigit (r3.dropWhile pySpace)).symm
      have e5 : (r3.dropWhile pySpace).dropWhile Char.isDigit
          = ((r3.dropWhile pySpace).dropWhile Char.isDigit).takeWhile pySpace ++
            ((r3.dropWhile pySpace).dropWhile Char.isDigit).dropWhile pySpace :=
        (List.takeWhile_append_dropWhile pySpace
          ((r3.dropWhile pySpace).dropWhile Char.isDigit)).symm
      split at hm
      case isTrue => exact Option.noConfusion hm
      case isFalse hds =>
        split at hm
        -- u = none arm
        case h_1 =>
          split at hm
          case h_2 => exact Option.noConfusion hm
          case h_1 tail6 heq6 =>
            simp only [Option.some.injEq, Prod.mk.injEq] at hm
            obtain ⟨hk, hr⟩ := hm
            subst hk
            subst hr
            have hS : s = (s.take 3 ++ (s.drop 3).takeWhile pySpace ++
                '(' :: (r3.takeWhile pySpace ++
                  (r3.dropWhile pySpace).takeWhile Char.isDigit ++
                  ((r3.dropWhile pySpace).dropWhile Char.isDigit).takeWhile pySpace ++
                  [')'])) ++ tail6 := by
              conv_lhs => rw [e1, e2, e3, e4, e5, heq6]
              simp only [List.append_assoc, List.cons_append,
                List.singleton_append, List.nil_append]
            rw [count_take_span c s _ _ hS (by simp)]
            have hz1 := count_takeWhile_zero _ pySpace hsp
            have hz2 := count_takeWhile_zero _ Char.isDigit hdig
            rcases hc with rfl | rfl <;>
              simp [List.count_append, List.count_cons, hc3, hz1, hz2,
                hunit] <;>
              decide
        -- u = some uw arm
        case h_2 uw =>
          split at hm
          case isFalse => exact Option.noConfusion hm
          case isTrue huwp =>
            split at hm
            case h_2 => exact Option.noConfusion hm
            case h_1 tail9 heq9 =>
              simp only [Option.some.injEq, Prod.mk.injEq] at hm
              obtain ⟨hk, hr⟩ := hm
              subst hk
              subst hr
              have hcs : ¬ c = 's' := by
                rcases hc with rfl | rfl <;> decide
              have huwp0 : ((((r3.dropWhile pySpace).dropWhile
                  Char.isDigit).dropWhile pySpace).take uw.length).count c = 0 :=
                count_zero_of_lower_eq c hfix _ _ huwp (huwc uw rfl)
              have e6 : ((r3.dropWhile pySpace).dropWhile Char.isDigit).dropWhile
                    pySpace
                  = (((r3.dropWhile pySpace).dropWhile Char.isDigit).dropWhile
                      pySpace).take uw.length ++
                    (((r3.dropWhile pySpace).dropWhile Char.isDigit).dropWhile
                      pySpace).drop uw.length :=
                (List.take_append_drop uw.length _).symm
              have e7 := agoSfx_prefix ((((r3.dropWhile pySpace).dropWhile
                Char.isDigit).dropWhile pySpace).drop uw.length)
              have e8 : (((((r3.dropWhile pySpace).dropWhile Char.isDigit).dropWhile
                    pySpace).drop uw.length).drop
                      ((agoSfx ((((r3.dropWhile pySpace).dropWhile
                        Char.isDigit).dropWhile pySpace).drop uw.length)).length))
                  = ((((((r3.dropWhile pySpace).dropWhile Char.isDigit).dropWhile
                      pySpace).drop uw.length).drop
                        ((agoSfx ((((r3.dropWhile pySpace).dropWhile
                          Char.isDigit).dropWhile pySpace).drop
                            uw.length)).length)).takeWhile pySpace) ++
                    ((((((r3.dropWhile pySpace).dropWhile Char.isDigit).dropWhile
                      pySpace).drop uw.length).drop
                        ((agoSfx ((((r3.dropWhile pySpace).dropWhile
                          Char.isDigit).dropWhile pySpace).drop
                            uw.length)).length)).dropWhile pySpace) :=
                (List.takeWhile_append_dropWhile pySpace _).symm
              have hS : s = (s.take 3 ++ (s.drop 3).takeWhile pySpace ++
                  '(' :: (r3.takeWhile pySpace ++
                    (r3.dropWhile pySpace).takeWhile Char.isDigit ++
                    ((r3.dropWhile pySpace).dropWhile Char.isDigit).takeWhile
                      pySpace ++
                    (((r3.dropWhile pySpace).dropWhile Char.isDigit).dropWhile
                      pySpace).take uw.length ++
                    agoSfx ((((r3.dropWhile pySpace).dropWhile
                      Char.isDigit).dropWhile pySpace).drop uw.length) ++
                    ((((((r3.dropWhile pySpace).dropWhile Char.isDigit).dropWhile
                      pySpace).drop uw.length).drop
                        ((agoSfx ((((r3.dropWhile pySpace).dropWhile
                          Char.isDigit).dropWhile pySpace).drop
                            uw.length)).length)).takeWhile pySpace) ++
                    [')'])) ++ tail9 := by
                conv_lhs => rw [e1, e2, e3, e4, e5, e6, e7, e8, heq9]
                simp only [List.append_assoc, List.cons_append,
                  List.singleton_append, List.nil_append]
              rw [count_take_span c s _ _ hS (by simp)]
              have hz1 := count_takeWhile_zero _ pySpace hsp
              have hz2 := count_takeWhile_zero _ Char.isDigit hdig
              have hz3 := agoSfx_count c hfix hcs
              rcases hc with rfl | rfl <;>
                simp [List.count_append, List.count_cons, hc3, hz1, hz2,
                  huwp0, hz3, hunit] <;>
                decide

theorem ciLit_H (c : Char) (hfix : asciiLower c = c)
    (hinj : ∀ x, asciiLower x = c → x = c)
    (wrong correct : Str) (hne : wrong ≠ [])
    (hl : asciiLowerStr wrong = wrong)
    (hcnt : wrong.count c = correct.count c) :
    ∀ s k r, ciLitMatch wrong correct s = some (k, r) →
      (s.take (k + 1)).count c = r.count c := by
  intro s k r hm
  simp only [ciLitMatch] at hm
  split at hm
  case isFalse => exact Option.noConfusion hm
  case isTrue h =>
    simp only [Option.some.injEq, Prod.mk.injEq] at hm
    obtain ⟨hk, hr⟩ := hm
    subst hk
    subst hr
    have hlen : wrong.length - 1 + 1 = wrong.length := by
      cases wrong with
      | nil => exact absurd rfl hne
      | cons a t => simp
    rw [hlen,
      count_eq_of_lower_eq c hfix hinj (s.take wrong.length) wrong
        (by rw [h]; exact hl.symm),
      hcnt]

theorem eqQuote_H (c : Char) (hc : c = '(' ∨ c = ')') :
    ∀ s k r, eqQuoteMatch s = some (k, r) →
      (s.take (k + 1)).count c = r.count c := by
  have hsp : pySpace c = false := by rcases hc with rfl | rfl <;> decide
  have hid : isIdentChar c = false := by rcases hc with rfl | rfl <;> decide
  intro s k r hm
  simp only [eqQuoteMatch] at hm
  split at hm
  case isTrue => exact Option.noConfusion hm
  case isFalse hw =>
    split at hm
    case h_2 => exact Option.noConfusion hm
    case h_1 r3 heq1 =>
      split at hm
      case h_2 => exact Option.noConfusion hm
      case h_1 r5 heq2 =>
        split at hm
        case h_2 => exact Option.noConfusion hm
        case h_1 tail9 heq3 =>
          simp only [Option.some.injEq, Prod.mk.injEq] at hm
          obtain ⟨hk, hr⟩ := hm
          subst hk
          subst hr
          have e1 : s = s.takeWhile isIdentChar ++ s.dropWhile isIdentChar :=
            (List.takeWhile_append_dropWhile isIdentChar s).symm
          have e2 : s.dropWhile isIdentChar
              = (s.dropWhile isIdentChar).takeWhile pySpace ++
                ('=' :: r3) := by
            rw [← heq1, List.takeWhile_append_dropWhile]
          have e3 : r3 = r3.takeWhile pySpace ++ ('\"' :: r5) := by
            rw [← heq2, List.takeWhile_append_dropWhile]
          have e4 : r5 = r5.takeWhile (fun x => x != '\"') ++
              r5.dropWhile (fun x => x != '\"') :=
            (List.takeWhile_append_dropWhile _ r5).symm
          have hS : s = ((s.takeWhile isIdentChar ++
              (s.dropWhile isIdentChar).takeWhile pySpace ++
              '=' :: (r3.takeWhile pySpace ++
                '\"' :: (r5.takeWhile (fun x => x != '\"') ++
                  ['\"']))) ++ tail9) := by
            conv_lhs => rw [e1, e2, e3, e4, heq3]
            simp only [List.append_assoc, List.cons_append,
              List.singleton_append, List.nil_append]
          rw [count_take_span c s _ _ hS (by simp)]
          have hz1 := count_takeWhile_zero _ pySpace hsp
          have hz2 := count_takeWhile_zero _ isIdentChar hid
          have hz3 : (str " == ").count c = 0 := by
            rcases hc with rfl | rfl <;> decide
          rcases hc with rfl | rfl <;>
            simp [List.count_append, List.count_cons, hz1, hz2, hz3]

theorem count_checkTimeFilters (c : Char) (hc : c = '(' ∨ c = ')') (q : Str) :
    ((checkTimeFilters q).1).count c = q.count c := by
  simp only [checkTimeFilters]
  have hfold : ((timePatterns.foldl
      (fun (cw : Str × List Str) m =>
        if hasMatch m cw.1 then
          (subScan m cw.1, cw.2 ++ [str "Corrected time filter format"])
        else cw) (q, [])).1).count c = q.count c := by
    refine count_foldl_fst c _ timePatterns ?_ (q, [])
    intro cw m hmem
    simp only [timePatterns, List.mem_cons, List.not_mem_nil, or_false] at hmem
    split
    · rcases hmem with rfl | rfl | rfl | rfl
      · exact count_subScan c _ (ago_H c hc none 'd' (Or.inl ⟨rfl, rfl⟩)) cw.1
      · exact count_subScan c _
          (ago_H c hc (some (str "day")) 'd' (Or.inr (Or.inl ⟨rfl, rfl⟩))) cw.1
      · exact count_subScan c _
          (ago_H c hc (some (str "hour")) 'h'
            (Or.inr (Or.inr (Or.inl ⟨rfl, rfl⟩)))) cw.1
      · exact count_subScan c _
          (ago_H c hc (some (str "minute")) 'm'
            (Or.inr (Or.inr (Or.inr ⟨rfl, rfl⟩)))) cw.1
    · rfl
  split
  · exact hfold
  · exact hfold

theorem count_fixCommonMistakes (c : Char) (hc : c = '(' ∨ c = ')') (q : Str) :
    ((fixCommonMistakes q).1).count c = q.count c := by
  have hfix : asciiLower c = c := by rcases hc with rfl | rfl <;> decide
  have hinj : ∀ x, asciiLower x = c → x = c := by
    rcases hc with rfl | rfl
    · exact asciiLower_eq_lparen
    · exact asciiLower_eq_rparen
  simp only [fixCommonMistakes]
  have hfold : ((functionFixes.foldl
      (fun (cw : Str × List Str) wc =>
        if pyIn wc.1 (asciiLowerStr cw.1) then
          (subScan (ciLitMatch wc.1 wc.2) cw.1,
           cw.2 ++ [str "Corrected function name: " ++ wc.1 ++ str " -> " ++ wc.2])
        else cw) (q, [])).1).count c = q.count c := by
    refine count_foldl_fst c _ functionFixes ?_ (q, [])
    intro cw m hmem
    simp only [functionFixes, List.mem_cons, List.not_mem_nil, or_false] at hmem
    split
    · rcases hmem with rfl | rfl | rfl | rfl | rfl <;>
        exact count_subScan c _
          (ciLit_H c hfix hinj _ _ (by decide) (by decide)
            (by rcases hc with rfl | rfl <;> decide)) cw.1
    · rfl
  split
  · rw [count_subScan c eqQuoteMatch (eqQuote_H c hc), hfold]
  · exact hfold

theorem finalValidation_balanced (q : Str) (h : finalValidation q = true) :
    q.count '(' = q.count ')' := by
  simp only [finalValidation] at h
  split at h
  · exact Bool.noConfusion h
  · split at h
    · exact Bool.noConfusion h
    · split at h
      · exact Bool.noConfusion h
      · split at h
        · exact of_decide_eq_true h
        · exact Bool.noConfusion h

theorem count_validateAndCorrect (c : Char) (hc : c = '(' ∨ c = ')')
    (q : Str) (tables : Option (List Str))
    (htab : ∀ ts, tables = some ts → ∀ t ∈ ts, t.count c = 0) :
    ((validateAndCorrect q tables).1).count c = q.count c := by
  have hsp : pySpace c = false := by rcases hc with rfl | rfl <;> decide
  simp only [validateAndCorrect]
  rw [count_fixCommonMistakes c hc, count_checkTimeFilters c hc,
    count_checkTableNames c hc tables htab, count_checkBasicSyntax c hc,
    count_removeMarkdown c hc, count_pyStrip c hsp]

/-- Claim C5 (amended): whenever every entry of a provided table allowlist is
free of parentheses (vacuously so when no allowlist is given; the built-in
common-table list also satisfies this), an input whose count of opening
parentheses differs from its count of closing parentheses is reported
`is_valid = false`: none of the correction stages changes either parenthesis
count, and the final validation demands exact balance. -/
theorem C5_unbalanced_invalid (q : Str) (tables : Option (List Str))
    (htab : ∀ ts, tables = some ts →
      ∀ t ∈ ts, t.count '(' = 0 ∧ t.count ')' = 0)
    (hq : q.count '(' ≠ q.count ')') :
    (validateAndCorrect q tables).2.2 = false := by
  have h1 := count_validateAndCorrect '(' (Or.inl rfl) q tables
    (fun ts h t ht => (htab ts h t ht).1)
  have h2 := count_validateAndCorrect ')' (Or.inr rfl) q tables
    (fun ts h t ht => (htab ts h t ht).2)
  have hv : (validateAndCorrect q tables).2.2
      = finalValidation ((validateAndCorrect q tables).1) := by
    simp only [validateAndCorrect]
  rw [hv]
  cases hfv : finalValidation ((validateAndCorrect q tables).1) with
  | false => rfl
  | true =>
    have hb := finalValidation_balanced _ hfv
    rw [h1, h2] at hb
    exact absurd hb hq

/-- Witness for C5 at the concrete unbalanced input `(` with no allowlist. -/
theorem C5_unbalanced_invalid_witness :
    (str "(").count '(' ≠ (str "(").count ')' ∧
    (validateAndCorrect (str "(") none).2.2 = false :=
  ⟨by decide, C5_unbalanced_invalid (str "(") none
    (fun ts h => Option.noConfusion h) (by decide)⟩

/-- Counterexample to the claim as literally stated: with the
parenthesis-bearing allowlist entry `Tb(le`, the unbalanced input
`Tble\n| where x)` is corrected to `Tb(le\n| where x)` - the table-name
substitution injects an opening parenthesis, the final text balances, and
`is_valid = true` is returned although the input was unbalanced. -/
theorem C5_counterexample :
    (str "Tble\n| where x)").count '(' ≠ (str "Tble\n| where x)").count ')' ∧
    (validateAndCorrect (str "Tble\n| where x)")
      (some [str "Tb(le"])).2.2 = true := by
  constructor
  · decide
  · decide
